import Mathlib

/-!
Verification of the gelix compiler front/middle-end (gelixrs).

This file shallowly embeds the parts of the compiler that the claims
touch: the MIR/GIR expression generator (src/src/mir/generator/mod.rs and
src/src/mir/generator/gen_expr.rs), the GIR expression type computation
(src/src/gir/nodes/expression.rs), declaration visibility
(src/crates/gir-nodes/src/declaration.rs) and the event-stream parser
front-end (src/parser/src/lib.rs).

The revision mixes two IR schemas; several modules the generator calls
into (the mir::nodes Expr/Type of the generator's era, the lexer crate,
ast::expression::LOGICAL_BINARY, the common::ModPath type and the
parser's Sink) are not part of the source tree. Definitions for those
carry a doc comment starting with "Modelled from the spec:" and follow
the specification's words; everything else is translated directly from
the source.
-/

namespace Gelix

/-- Token kinds of the gelix lexer that the expression generator
inspects. The lexer crate is not in the tree; this is the subset of its
TType enum reconstructed from its uses in src/mir/generator. -/
inductive TType where
  | identifier
  | plus
  | minus
  | star
  | slash
  | and_
  | or_
  | equalEqual
  | bangEqual
  | less
  | lessEqual
  | greater
  | greaterEqual
  | is_
  | bang
  | rightBracket
  deriving DecidableEq, Repr

/-- Modelled from the spec: the LOGICAL_BINARY operator list of the
missing ast::expression module. Spec section 4.5: the logical operators
(and, or, ==, !=, <, <=, >, >=) always have result type Bool, and the
`is` runtime type test also returns Bool. -/
def LOGICAL_BINARY : List TType :=
  [TType.and_, TType.or_, TType.equalEqual, TType.bangEqual,
   TType.less, TType.lessEqual, TType.greater, TType.greaterEqual,
   TType.is_]

/-- A lexed token as the generator sees it: its kind and its lexeme.
Reconstructed from the uses of lexer::token::Token in src/mir/generator
(only t_type and lexeme are read there). -/
structure Token where
  t_type : TType
  lexeme : String
  deriving DecidableEq, Repr

/-- Token::generic_identifier of the missing lexer crate: a synthetic
identifier token carrying the given lexeme (reconstructed from its uses
in src/mir/generator/mod.rs and gen_expr.rs). -/
def Token.generic_identifier (name : String) : Token :=
  { t_type := TType.identifier, lexeme := name }

/-- Types of the gelix type system as used by the MIR generator.
The Type enum of the generator's mir::nodes era is not in the tree; the
variant set here is reconstructed from spec section 3 (the type algebra)
restricted to the variants the generator code actually uses.
Declarations (classes, interfaces, functions, closures) are referenced
by stable ids into the context tables, mirroring the shared-pointer
references of the source. -/
inductive GType where
  | none
  | any
  | bool
  | i8
  | i16
  | i32
  | i64
  | u8
  | u16
  | u32
  | u64
  | f32
  | f64
  | class_ (id : Nat)
  | interface (id : Nat)
  | function (id : Nat)
  | closure (id : Nat)
  | closureCaptured (id : Nat)
  | typeval (inner : GType)
  deriving DecidableEq, Repr

/-- Modelled from the spec: Type::is_number of the missing mir::nodes
module. The numeric primitives are I8..I64, U8..U64, F32, F64 (spec
section 3). Bool is included as well: `a and b` on two Bools must
produce Expr::Binary for smart casts to descend through `and` (spec
section 4.5), and binary_mir only produces Expr::Binary for equal
operand types satisfying is_number. -/
def GType.is_number : GType → Bool
  | .bool | .i8 | .i16 | .i32 | .i64
  | .u8 | .u16 | .u32 | .u64 | .f32 | .f64 => true
  | _ => false

/-- Type::is_type of the missing mir::nodes module: whether this is a
reified type value Type::Type (reconstructed from its uses). -/
def GType.is_type : GType → Bool
  | .typeval _ => true
  | _ => false

/-- Type::as_type of the missing mir::nodes module: the inner type of a
reified Type::Type value. The source unwraps and panics on other
variants; the panic is modelled as Option.none. -/
def GType.as_type : GType → Option GType
  | .typeval t => some t
  | _ => Option.none

/-- Modelled from the spec: Type::is_assignable of the missing
mir::nodes module, used by var_def. Reified type values are produced
only for bare type names (spec section 4.5, variable resolution rule 4)
and are not first-class storable values. -/
def GType.is_assignable (t : GType) : Bool :=
  !t.is_type

/-- A variable inside a function (mir::nodes Variable of the generator's
era: mutable flag, type and name, as constructed in
MIRGenerator::define_variable). -/
structure Variable where
  mutable : Bool
  type_ : GType
  name : String
  deriving DecidableEq, Repr

/-- A class member (mir::nodes ClassMember of the generator's era),
reconstructed from its uses in gen_expr.rs (mutable, type_, index) and
mod.rs (has_default_value). -/
structure ClassMember where
  name : String
  mutable : Bool
  type_ : GType
  index : Nat
  has_default_value : Bool
  deriving DecidableEq, Repr

/-- Plain literals (ast::Literal restricted to the non-recursive cases
the embedded generator handles; arrays and closures are lowered by
separate code paths that are not embedded). -/
inductive Lit where
  | none
  | bool (b : Bool)
  | i32 (n : Int)
  | i64 (n : Int)
  deriving DecidableEq, Repr

/-- Signature data of a function declaration reachable through
Type::Function. The variadic flag models
`func.ast.as_ref().map(|a| a.sig.variadic).unwrap_or(false)` of
gen_expr.rs: it is false when the function has no AST. -/
structure FuncInfo where
  name : String
  parameters : List Variable
  ret_type : GType
  variadic : Bool

/-- Parameter and return types of a closure type (ClosureType of spec
section 3). -/
structure ClosureInfo where
  parameters : List GType
  ret_type : GType

/-- A dynamically dispatched interface method signature (an entry of the
dyn-methods IndexMap read by try_method_call). Parameters do not include
the receiver. -/
structure DynMethod where
  name : String
  parameters : List GType
  ret_type : GType

/-- Data of a class declaration read by the generator: members (an
IndexMap, so ordered), directly callable methods and constructors. -/
structure ClassInfo where
  name : String
  members : List ClassMember
  methods : List (String × Variable)
  constructors : List Variable

/-- Data of an interface declaration: its ordered method table. -/
structure IfaceInfo where
  methods : List DynMethod

/-- A single `impl Iface for T` entry of the global
interface-implementation table. iface_proto is the id of the prototype
the implemented interface was built from (None when it has none), as
read by get_operator_overloading_method. -/
structure ImplBlock where
  iface_proto : Option Nat
  methods : List (String × Variable)

/-- All interface implementations of one implementor type: the per
interface blocks plus the flattened method map read by
find_associated_method. -/
structure IfaceImpls where
  interfaces : List (GType × ImplBlock)
  methods : List (String × Variable)

/-- Association list lookup (the HashMap / IndexMap get of the source;
insertion conses at the head, so the first hit is the most recent
binding, matching HashMap replace semantics for lookups). -/
def alookup {α β : Type} [DecidableEq α] (key : α) : List (α × β) → Option β
  | [] => Option.none
  | (k, v) :: rest => if k = key then some v else alookup key rest

/-- The read-only surroundings of the expression generator: declaration
tables (indexed by the ids that GType carries), the global
interface-implementation table IFACE_IMPLS, the INTRINSICS operator
interface map, the module's globals and its type namespace. -/
structure Ctx where
  funcs : Nat → FuncInfo
  closures : Nat → ClosureInfo
  classes : Nat → ClassInfo
  ifaces : Nat → IfaceInfo
  iface_impls : List (GType × IfaceImpls)
  get_op_iface : TType → Nat
  globals : List (String × Variable)
  types : List (String × GType)

/-- GIR/MIR expressions as constructed by the generator. The Expr enum
of the generator's mir::nodes era is not in the tree; the schema follows
the in-tree gir::nodes::expression::Expr (src/src/gir/nodes/expression.rs)
restricted to the constructors gen_expr.rs uses, with stores addressing
a variable directly (mir VarStore style) and declaration references by
id. -/
inductive Expr where
  | block (exprs : List Expr)
  | literal (l : Lit)
  | varGet (v : Variable)
  | store (var : Variable) (value : Expr) (first_store : Bool)
  | binary (left : Expr) (operator : TType) (right : Expr)
  | unary (right : Expr) (operator : TType)
  | call (callee : Expr) (arguments : List Expr)
  | callDyn (iface : Nat) (index : Nat) (arguments : List Expr)
  | ifE (condition then_branch else_branch : Expr) (phi_type : Option GType)
  | switch (branches : List (Expr × Expr)) (else_branch : Expr) (phi_type : Option GType)
  | loop (condition body else_branch : Expr) (phi_type : Option GType)
  | cast (inner : Expr) (to_ty : GType)
  | structGet (object : Expr) (field : ClassMember)
  | structSet (object : Expr) (index : Nat) (value : Expr) (first_set : Bool)
  | allocate (ty : GType) (constructor : Variable) (args : List Expr)
  | typeGet (t : GType)

mutual

/-- Computes the result type of an expression, following Expr::get_type
in src/src/gir/nodes/expression.rs (Block: type of the last expression;
Binary/Unary: Bool for logical operators, else the right operand's type;
Call: the callee signature's return type; If/Switch/Loop: the phi type
or None; Cast/Allocate: the carried type; StructSet follows the in-tree
mir::nodes type_from_struct_get, the member's type). The source unwraps
(panics) on an empty block and on a non-callable callee; those
unreachable cases yield Type::None here. -/
def Expr.getType (ctx : Ctx) : Expr → GType
  | .block exprs => Expr.getTypeLast ctx exprs
  | .literal l =>
    match l with
    | Lit.none => GType.none
    | Lit.bool _ => GType.bool
    | Lit.i32 _ => GType.i32
    | Lit.i64 _ => GType.i64
  | .varGet v => v.type_
  | .store var _ _ => var.type_
  | .binary _ operator r =>
    if operator ∈ LOGICAL_BINARY then GType.bool else r.getType ctx
  | .unary r operator =>
    if operator ∈ LOGICAL_BINARY then GType.bool else r.getType ctx
  | .call callee _ =>
    match callee.getType ctx with
    | GType.function fid => (ctx.funcs fid).ret_type
    | GType.closure cid => (ctx.closures cid).ret_type
    | _ => GType.none
  | .callDyn iface index _ =>
    match (ctx.ifaces iface).methods.get? index with
    | some m => m.ret_type
    | Option.none => GType.none
  | .ifE _ _ _ phi_type =>
    match phi_type with
    | some ty => ty
    | Option.none => GType.none
  | .switch _ _ phi_type =>
    match phi_type with
    | some ty => ty
    | Option.none => GType.none
  | .loop _ _ _ phi_type =>
    match phi_type with
    | some ty => ty
    | Option.none => GType.none
  | .cast _ to_ty => to_ty
  | .structGet _ field => field.type_
  | .structSet object index _ _ =>
    match object.getType ctx with
    | GType.class_ cid =>
      match (ctx.classes cid).members.find? (fun mem => mem.index == index) with
      | some mem => mem.type_
      | Option.none => GType.none
    | _ => GType.none
  | .allocate ty _ _ => ty
  | .typeGet t => GType.typeval t

/-- Type of the last expression of a block (the
`exprs.last().unwrap().get_type()` of the source; the empty case is the
modelled panic). -/
def Expr.getTypeLast (ctx : Ctx) : List Expr → GType
  | [] => GType.none
  | [e] => e.getType ctx
  | _ :: rest => Expr.getTypeLast ctx rest

end

/-- Expr::is_var_get of the missing mir::nodes module: whether the
expression is a plain variable read (reconstructed from find_casts). -/
def Expr.is_var_get : Expr → Bool
  | .varGet _ => true
  | _ => false

/-- Modelled from the spec: the Expr::if_ constructor of the missing
mir::nodes module receives the phi flag computed by the generator; spec
section 4.5 states phi_type is Some(T) when both branches yield T and T
is not None, so the flag set means phi_type is the then branch's type. -/
def Expr.if_cons (ctx : Ctx) (cond then_v else_v : Expr) (phi : Bool) : Expr :=
  Expr.ifE cond then_v else_v (if phi then some (then_v.getType ctx) else Option.none)

/-- Modelled from the spec: the Expr::alloc_type helper of the missing
mir::nodes module. Spec scenario 1 shows Allocate carrying the allocated
ADT type itself, so the reified Type(T) callee type unwraps to T. -/
def Expr.alloc_type (ty : GType) (constructor : Variable) (args : List Expr) : Expr :=
  match ty with
  | GType.typeval inner => Expr.allocate inner constructor args
  | t => Expr.allocate t constructor args

/-- Errors of the generator. The source reports formatted strings; each
error site of the embedded code gets one constructor here, carrying the
data the source interpolates. outOfFuel stands for non-termination of
the embedding's recursion and corresponds to no source behavior. -/
inductive GErr where
  /-- "Variable ... is not defined" -/
  | varNotDefined (name : String)
  /-- "Variable ... is a different type" (reported by assignment on an
  immutable variable; the source's two assignment messages are swapped
  relative to their conditions). -/
  | varDifferentType (name : String)
  /-- "Variable ... is not assignable (val)" (reported by assignment on
  a value of the wrong type). -/
  | varNotAssignable (name : String)
  /-- "No implementation of operator found for types." -/
  | noOperatorImpl
  /-- "Cannot call methods in constructors until all class members are
  initialized." -/
  | methodsInConstructor
  /-- "Class members cannot be called." -/
  | membersCannotBeCalled
  /-- "Unknown field or method." -/
  | unknownFieldOrMethod
  /-- "No matching constructor found for arguments." -/
  | noMatchingConstructor
  /-- "Only functions are allowed to be called" -/
  | onlyFunctionsCalled
  /-- "If condition must be a boolean" -/
  | ifCondNotBool
  /-- "Incorrect amount of function arguments. (Expected ...; got ...)" -/
  | arity (expected got : Nat)
  /-- "Call argument is the wrong type (was ..., expected ...)" -/
  | wrongArgType (was expected : GType)
  /-- The expect("internal error: method call") panic of
  generate_func_args on a receiver argument. -/
  | internalMethodCall
  /-- "Cannot get class method (must be called)" -/
  | cannotGetMethod
  /-- "Cannot get uninitialized class member." -/
  | uninitializedMember
  /-- "Cannot set class method" -/
  | cannotSetMethod
  /-- "Class member is a different type" -/
  | memberDifferentType
  /-- "Cannot set immutable class member" -/
  | setImmutableMember
  /-- "Cannot have uninitialized fields after constructor." -/
  | uninitAfterConstructor
  /-- "Cannot assign type ... to a variable." -/
  | cannotAssignType (t : GType)
  /-- "Cannot redefine variable ... in the same scope." -/
  | redefinedVariable (name : String)
  /-- Recursion fuel of the embedding ran out. -/
  | outOfFuel
  deriving DecidableEq, Repr

/-- Result type of the generator (error::Res of the source). -/
abbrev Res (α : Type) : Type := Except GErr α

/-- The mutable state of MIRGenerator during body generation: the scope
stack (head is the innermost scope; each scope is an association list
with the most recent binding first), the current function's variable
table and the uninitialized_this_members set (a duplicate-free list).
The insertion position, loop data and closure data of the source are not
needed by the embedded code paths. -/
structure GenState where
  environments : List (List (String × Variable))
  fn_variables : List (String × Variable)
  uninitialized_this_members : List ClassMember

/-- MIRGenerator::begin_scope: push a fresh scope. -/
def beginScope (st : GenState) : GenState :=
  { st with environments := [] :: st.environments }

/-- MIRGenerator::end_scope: pop the innermost scope. -/
def endScope (st : GenState) : GenState :=
  { st with environments := st.environments.tail }

/-- MIRGenerator::add_function_variable (plus the insert_var of the
function it targets): put the variable into the current function's
variable table, disambiguating a colliding key by appending the table
length. -/
def GenState.addFunctionVariable (st : GenState) (v : Variable) : GenState :=
  let key :=
    if (alookup v.name st.fn_variables).isSome
    then v.name ++ "-" ++ toString st.fn_variables.length
    else v.name
  { st with fn_variables := (key, v) :: st.fn_variables }

/-- MIRGenerator::insert_variable without its error reporting: insert
the variable into the topmost scope (the source mutates first and only
then reports redefinition, which callers may ignore). Returns whether
the name was already bound in that scope. The source unwraps the topmost
scope; the no-scope case is the modelled panic and changes nothing. -/
def GenState.insertScoped (st : GenState) (var : Variable) : Bool × GenState :=
  match st.environments with
  | [] => (false, st)
  | env :: rest =>
    ((alookup var.name env).isSome,
     { st with environments := ((var.name, var) :: env) :: rest })

/-- MIRGenerator::define_variable: create the variable, add it to the
function's variable table and bind it in the topmost scope (redefinition
allowed, the error is discarded with unwrap_or). -/
def defineVariable (st : GenState) (token : Token) (mutable : Bool) (ty : GType) :
    Variable × GenState :=
  let def_ : Variable := { mutable := mutable, type_ := ty, name := token.lexeme }
  let st1 := st.addFunctionVariable def_
  let (_, st2) := st1.insertScoped def_
  (def_, st2)

/-- MIRGenerator::find_var: search the scope stack innermost-first, then
the module's globals. (The closure capture branch is not embedded; no
claim exercises closures.) The gen_expr.rs call sites of this revision
treat the result as an Option and attach their own errors. -/
def findVar (ctx : Ctx) (st : GenState) (token : Token) : Option Variable :=
  match st.environments.findSome? (fun env => alookup token.lexeme env) with
  | some v => some v
  | Option.none => alookup token.lexeme ctx.globals

/-- The `method.type_.as_function().borrow().parameters[1].type_` chain
of get_operator_overloading_method: the type of a method's second
parameter. The source panics on a non-function method or fewer than two
parameters; the unreachable panics are modelled as None. -/
def methodSecondParam (ctx : Ctx) (method : Variable) : Option GType :=
  match method.type_ with
  | GType.function fid =>
    match (ctx.funcs fid).parameters.get? 1 with
    | some p => some p.type_
    | Option.none => Option.none
  | _ => Option.none

/-- The search loop of get_operator_overloading_method over the impl
blocks of the left type: skip blocks whose interface was not built from
the operator's prototype; for a matching block take its first method and
return it when its second parameter type is the right type. -/
def findOpMethod (ctx : Ctx) (proto : Nat) (right_ty : GType) :
    List (GType × ImplBlock) → Option Variable
  | [] => Option.none
  | (_, im) :: rest =>
    if im.iface_proto = some proto then
      match im.methods.head? with
      | some (_, method) =>
        if methodSecondParam ctx method = some right_ty then some method
        else findOpMethod ctx proto right_ty rest
      | Option.none => findOpMethod ctx proto right_ty rest
    else findOpMethod ctx proto right_ty rest

/-- MIRGenerator::get_operator_overloading_method: among the interface
implementations of the left type whose interface was built from the
operator's intrinsic prototype, return the first implementation's first
method whose second parameter type is the right type. The source panics
when an implementation block is empty or its method is not of function
type with two parameters; those unreachable cases are skipped here. -/
def getOperatorOverloadingMethod (ctx : Ctx) (op : TType) (left_ty right_ty : GType) :
    Option Variable :=
  match alookup left_ty ctx.iface_impls with
  | Option.none => Option.none
  | some impls => findOpMethod ctx (ctx.get_op_iface op) right_ty impls.interfaces

/-- MIRGenerator::check_call_arg_type: accept an argument of exactly the
parameter type, or wrap it in a cast when the argument's type has a
registered implementation of the parameter (interface) type in
IFACE_IMPLS; otherwise None. -/
def checkCallArgType (ctx : Ctx) (arg : Expr) (ty : GType) : Option Expr :=
  let arg_type := arg.getType ctx
  if arg_type = ty then some arg
  else
    match alookup arg_type ctx.iface_impls with
    | Option.none => Option.none
    | some impls =>
      if (alookup ty impls.interfaces).isSome then some (Expr.cast arg ty)
      else Option.none

/-- AST expressions (ast::Expression) restricted to the constructs whose
lowering is embedded; the remaining constructs (for, when, break,
return, unary, static and index access, closures, arrays) live on
disjoint code paths of gen_expr.rs that no claim exercises. -/
inductive AST where
  | assignment (name : Token) (value : AST)
  | binary (left : AST) (operator : Token) (right : AST)
  | block (expressions : List AST)
  | call (callee : AST) (arguments : List AST)
  | get (object : AST) (name : Token)
  | ifE (condition then_branch : AST) (else_branch : Option AST)
  | literal (l : Lit)
  | set (object : AST) (name : Token) (value : AST)
  | var (name : Token)
  | varDef (name : Token) (mutable : Bool) (initializer : AST)

/-- A lowering continuation: MIRGenerator::expression as seen by the
helper functions, which in the source call back into it for their
sub-expressions. The top-level expression ties the knot. -/
abbrev Lower : Type := GenState → AST → Res (Expr × GenState)

/-- MIRGenerator::binary_mir: equal numeric operand types (or an `is`
test against a reified type) produce Expr::Binary; otherwise look up the
operator overloading method and emit a call of it on [left, right],
wrapped in a logical not for !=; error when no method exists. -/
def binaryMir (ctx : Ctx) (left : Expr) (operator : Token) (right : Expr) : Res Expr :=
  let left_ty := left.getType ctx
  let right_ty := right.getType ctx
  if (left_ty = right_ty ∧ left_ty.is_number = true) ∨
     (operator.t_type = TType.is_ ∧ right_ty.is_type = true) then
    Except.ok (Expr.binary left operator.t_type right)
  else
    match getOperatorOverloadingMethod ctx operator.t_type left_ty right_ty with
    | Option.none => Except.error GErr.noOperatorImpl
    | some method =>
      let e := Expr.call (Expr.varGet method) [left, right]
      Except.ok (if operator.t_type = TType.bangEqual then Expr.unary e TType.bang else e)

/-- The body of MIRGenerator::find_casts: walk the lowered condition,
descending through `and`; for a conjunct `x is T` whose left side is a
plain variable read, define a fresh immutable variable named after x of
type T and append a first-store of the old x cast to T. The source
panics when the right side of such an `is` is not a reified type;
binary_mir never builds one, and the unreachable case adds no cast. -/
def findCasts (ctx : Ctx) (st : GenState) (list : List Expr) : Expr → List Expr × GenState
  | Expr.binary left operator right =>
    match operator with
    | TType.and_ =>
      let (list1, st1) := findCasts ctx st list left
      findCasts ctx st1 list1 right
    | TType.is_ =>
      match left with
      | Expr.varGet v =>
        match (right.getType ctx).as_type with
        | some ty =>
          let (var, st1) := defineVariable st (Token.generic_identifier v.name) false ty
          (list ++ [Expr.store var (Expr.cast (Expr.varGet v) ty) true], st1)
        | Option.none => (list, st)
      | _ => (list, st)
    | _ => (list, st)
  | _ => (list, st)

/-- MIRGenerator::smart_casts: collect the smart cast stores of a
lowered condition starting from an empty list. -/
def smartCasts (ctx : Ctx) (st : GenState) (cond : Expr) : List Expr × GenState :=
  findCasts ctx st [] cond

/-- MIRGenerator::if_: lower and check the condition, open a scope for
the then branch, prepend the smart cast stores to the lowered then
expression as a block, close the scope, lower the else branch (an
omitted else becomes the None literal), compute the phi flag and build
the If expression. -/
def ifLower (lower : Lower) (ctx : Ctx) (st : GenState)
    (condition then_branch : AST) (else_branch : Option AST) : Res (Expr × GenState) := do
  let (cond, st1) ← lower st condition
  if cond.getType ctx ≠ GType.bool then
    Except.error GErr.ifCondNotBool
  else do
    let st2 := beginScope st1
    let (then_block, st3) := smartCasts ctx st2 cond
    let (then_e, st4) ← lower st3 then_branch
    let then_val := Expr.block (then_block ++ [then_e])
    let st5 := endScope st4
    let (else_val, st6) ←
      match else_branch with
      | some e => lower st5 e
      | Option.none => Except.ok (Expr.literal Lit.none, st5)
    let then_ty := then_val.getType ctx
    let else_ty := else_val.getType ctx
    let phi := decide (then_ty = else_val.getType ctx) &&
               (decide (then_ty ≠ GType.none) || decide (else_ty ≠ GType.none))
    Except.ok (Expr.if_cons ctx cond then_val else_val phi, st6)

/-- Sequential lowering of a list of expressions, failing on the first
error (the collect::<Res<_>> pattern of the source). -/
def lowerList (lower : Lower) : GenState → List AST → Res (List Expr × GenState)
  | st, [] => Except.ok ([], st)
  | st, a :: rest => do
    let (e, st1) ← lower st a
    let (es, st2) ← lowerList lower st1 rest
    Except.ok (e :: es, st2)

/-- MIRGenerator::block: an empty block is the None literal; otherwise
lower the expressions inside a fresh scope and wrap them in
Expr::Block. -/
def blockLower (lower : Lower) (st : GenState) (expressions : List AST) :
    Res (Expr × GenState) :=
  match expressions with
  | [] => Except.ok (Expr.literal Lit.none, st)
  | _ => do
    let st1 := beginScope st
    let (exprs, st2) ← lowerList lower st1 expressions
    let st3 := endScope st2
    Except.ok (Expr.block exprs, st3)

/-- MIRGenerator::assignment: resolve the variable (error when
undefined), lower the value; a store results only for a mutable variable
and a value of its exact type. The two error messages of the source are
swapped relative to their conditions and are mirrored faithfully. -/
def assignmentLower (lower : Lower) (ctx : Ctx) (st : GenState)
    (name : Token) (value : AST) : Res (Expr × GenState) :=
  match findVar ctx st name with
  | Option.none => Except.error (GErr.varNotDefined name.lexeme)
  | some var => do
    let (value_e, st1) ← lower st value
    let val_ty := value_e.getType ctx
    if val_ty = var.type_ ∧ var.mutable = true then
      Except.ok (Expr.store var value_e false, st1)
    else if var.mutable = false then
      Except.error (GErr.varDifferentType name.lexeme)
    else
      Except.error (GErr.varNotAssignable name.lexeme)

/-- MIRGenerator::find_associated_method: a class's direct method or an
interface's dynamic method index, falling back to the flattened method
map of the type's interface implementations. -/
def findAssociatedMethod (ctx : Ctx) (ty : GType) (name : Token) :
    Option (Variable ⊕ Nat) :=
  let method : Option (Variable ⊕ Nat) :=
    match ty with
    | GType.class_ cid => (alookup name.lexeme (ctx.classes cid).methods).map Sum.inl
    | GType.interface iid =>
      ((ctx.ifaces iid).methods.findIdx? (fun m => m.name = name.lexeme)).map Sum.inr
    | _ => Option.none
  match method with
  | some m => some m
  | Option.none =>
    match alookup ty ctx.iface_impls with
    | some impls => (alookup name.lexeme impls.methods).map Sum.inl
    | Option.none => Option.none

/-- MIRGenerator::get_field: lower the object; on a class type a member
of the given name wins, otherwise fall back to an associated method;
error when neither exists. -/
def getField (lower : Lower) (ctx : Ctx) (st : GenState) (object : AST) (name : Token) :
    Res ((Expr × (ClassMember ⊕ (Variable ⊕ Nat))) × GenState) := do
  let (obj, st1) ← lower st object
  let ty := obj.getType ctx
  let member : Option ClassMember :=
    match ty with
    | GType.class_ cid => (ctx.classes cid).members.find? (fun m => m.name = name.lexeme)
    | _ => Option.none
  match member with
  | some field => Except.ok ((obj, Sum.inl field), st1)
  | Option.none =>
    match findAssociatedMethod ctx ty name with
    | some m => Except.ok ((obj, Sum.inr m), st1)
    | Option.none => Except.error GErr.unknownFieldOrMethod

/-- The zip loop of MIRGenerator::generate_func_args: lower each
argument against its parameter (the zip ends at the shorter list) and
check it with check_call_arg_type, erroring on a mismatch. -/
def lowerZip (lower : Lower) (ctx : Ctx) :
    GenState → List AST → List GType → Res (List Expr × GenState)
  | st, [], _ => Except.ok ([], st)
  | st, _, [] => Except.ok ([], st)
  | st, a :: args, p :: params => do
    let (arg, st1) ← lower st a
    let arg_type := arg.getType ctx
    match checkCallArgType ctx arg p with
    | Option.none => Except.error (GErr.wrongArgType arg_type p)
    | some arg2 => do
      let (rest, st2) ← lowerZip lower ctx st1 args params
      Except.ok (arg2 :: rest, st2)

/-- MIRGenerator::generate_func_args: check the arity first (too few
arguments always error; too many only for a non-variadic callee), then
check the receiver argument if any (its failure is the source's expect
panic), zip-check the declared parameters, and finally lower any
surplus variadic arguments unchecked. -/
def generateFuncArgs (lower : Lower) (ctx : Ctx) (st : GenState)
    (parameters : List GType) (arguments : List AST)
    (first_arg : Option Expr) (allow_variadic : Bool) : Res (List Expr × GenState) :=
  let para_len := parameters.length
  let args_len := arguments.length + (if first_arg.isSome then 1 else 0)
  if para_len > args_len ∨ (para_len < args_len ∧ allow_variadic = false) then
    Except.error (GErr.arity para_len arguments.length)
  else
    match first_arg with
    | some arg =>
      match parameters with
      | [] => Except.error GErr.internalMethodCall
      | ty :: ps =>
        match checkCallArgType ctx arg ty with
        | Option.none => Except.error GErr.internalMethodCall
        | some arg2 => do
          let (zipped, st1) ← lowerZip lower ctx st arguments ps
          let found := arg2 :: zipped
          let (rest, st2) ← lowerList lower st1 (arguments.drop found.length)
          Except.ok (found ++ rest, st2)
    | Option.none => do
      let (zipped, st1) ← lowerZip lower ctx st arguments parameters
      let (rest, st2) ← lowerList lower st1 (arguments.drop zipped.length)
      Except.ok (zipped ++ rest, st2)

/-- MIRGenerator::try_method_call: only a Get callee is a method call;
while uninitialized_this_members is non-empty every such call errors.
Otherwise resolve the field: a member cannot be called; a class method
becomes Call(load(method), [object, args...]); an interface method
becomes CallDyn with the receiver prepended to the declared parameters.
The source's as_function and as_adt unwraps cannot fail on resolved
methods; the unreachable cases take empty parameter lists here. -/
def tryMethodCall (lower : Lower) (ctx : Ctx) (st : GenState)
    (callee : AST) (arguments : List AST) : Res (Option Expr × GenState) :=
  match callee with
  | AST.get object name =>
    if st.uninitialized_this_members ≠ [] then
      Except.error GErr.methodsInConstructor
    else do
      let ((objE, field), st1) ← getField lower ctx st object name
      match field with
      | Sum.inl _ => Except.error GErr.membersCannotBeCalled
      | Sum.inr (Sum.inl func) => do
        let params :=
          match func.type_ with
          | GType.function fid => (ctx.funcs fid).parameters.map (fun p => p.type_)
          | _ => []
        let (args, st2) ← generateFuncArgs lower ctx st1 params arguments (some objE) false
        Except.ok (some (Expr.call (Expr.varGet func) args), st2)
      | Sum.inr (Sum.inr index) => do
        let ty := objE.getType ctx
        let ifaceId :=
          match ty with
          | GType.interface i => i
          | _ => 0
        let params :=
          match (ctx.ifaces ifaceId).methods.get? index with
          | some m => m.parameters
          | Option.none => []
        let (args, st2) ← generateFuncArgs lower ctx st1 (ty :: params) arguments (some objE) false
        Except.ok (some (Expr.callDyn ifaceId index args), st2)
  | _ => Except.ok (Option.none, st)

/-- Modelled from the spec: Type::get_constructors of the missing
mir::nodes module. Spec section 4.5 (calls): a callee whose type is the
reified Type of an ADT is a constructor invocation; only class types
carry constructors in the embedded tables. -/
def Ctx.get_constructors (ctx : Ctx) : GType → Option (List Variable)
  | GType.typeval (GType.class_ cid) => some (ctx.classes cid).constructors
  | _ => Option.none

/-- The constructor-matching predicate of try_constructor_call: the
parameter count minus the receiver equals the argument count and every
parameter after the receiver has exactly the argument's type. -/
def constructorMatches (ctx : Ctx) (c : Variable) (args : List Expr) : Bool :=
  match c.type_ with
  | GType.function fid =>
    let ps := (ctx.funcs fid).parameters
    decide (ps.length - 1 = args.length) &&
    ((ps.drop 1).zip args).all (fun pa => decide (pa.1.type_ = pa.2.getType ctx))
  | _ => false

/-- MIRGenerator::try_constructor_call: when the callee's type carries
constructors, lower the arguments and allocate with the first
constructor whose parameters (minus the receiver) match them exactly;
error when none matches. -/
def tryConstructorCall (lower : Lower) (ctx : Ctx) (st : GenState)
    (callee : Expr) (args : List AST) : Res (Option Expr × GenState) :=
  let callee_type := callee.getType ctx
  match ctx.get_constructors callee_type with
  | Option.none => Except.ok (Option.none, st)
  | some constructors => do
    let (argsE, st1) ← lowerList lower st args
    match constructors.find? (fun c => constructorMatches ctx c argsE) with
    | Option.none => Except.error GErr.noMatchingConstructor
    | some c => Except.ok (some (Expr.alloc_type callee_type c argsE), st1)

/-- MIRGenerator::call: try a method call, then a constructor call; a
remaining callee must be of function type (arity per its signature,
variadic per its AST) or closure type (never variadic); anything else is
not callable. -/
def callLower (lower : Lower) (ctx : Ctx) (st : GenState)
    (callee : AST) (arguments : List AST) : Res (Expr × GenState) := do
  let (m, st1) ← tryMethodCall lower ctx st callee arguments
  match m with
  | some e => Except.ok (e, st1)
  | Option.none => do
    let (callee_mir, st2) ← lower st1 callee
    let (c, st3) ← tryConstructorCall lower ctx st2 callee_mir arguments
    match c with
    | some e => Except.ok (e, st3)
    | Option.none =>
      match callee_mir.getType ctx with
      | GType.function fid => do
        let fi := ctx.funcs fid
        let (args, st4) ← generateFuncArgs lower ctx st3
          (fi.parameters.map (fun p => p.type_)) arguments Option.none fi.variadic
        Except.ok (Expr.call callee_mir args, st4)
      | GType.closure cid => do
        let (args, st4) ← generateFuncArgs lower ctx st3
          (ctx.closures cid).parameters arguments Option.none false
        Except.ok (Expr.call callee_mir args, st4)
      | _ => Except.error GErr.onlyFunctionsCalled

/-- MIRGenerator::get: a resolved method cannot be read as a value and
an uninitialized member cannot be read; otherwise a StructGet. -/
def getLower (lower : Lower) (ctx : Ctx) (st : GenState) (object : AST) (name : Token) :
    Res (Expr × GenState) := do
  let ((objE, field), st1) ← getField lower ctx st object name
  match field with
  | Sum.inr _ => Except.error GErr.cannotGetMethod
  | Sum.inl f =>
    if f ∈ st1.uninitialized_this_members then
      Except.error GErr.uninitializedMember
    else
      Except.ok (Expr.structGet objE f, st1)

/-- MIRGenerator::set: resolve the field (a method cannot be set), lower
the value; the value must have exactly the field's type, and an
immutable field may only be set while it is still in
uninitialized_this_members. The emitted StructSet records whether this
was the first store, and the field leaves the set. -/
def setLower (lower : Lower) (ctx : Ctx) (st : GenState)
    (object : AST) (name : Token) (value : AST) : Res (Expr × GenState) := do
  let ((objE, field), st1) ← getField lower ctx st object name
  match field with
  | Sum.inr _ => Except.error GErr.cannotSetMethod
  | Sum.inl f => do
    let (value_e, st2) ← lower st1 value
    if value_e.getType ctx ≠ f.type_ then
      Except.error GErr.memberDifferentType
    else if f.mutable = false ∧ f ∉ st2.uninitialized_this_members then
      Except.error GErr.setImmutableMember
    else
      let first_set := decide (f ∈ st2.uninitialized_this_members)
      let st3 := { st2 with uninitialized_this_members :=
        st2.uninitialized_this_members.filter (fun m => decide (m ≠ f)) }
      Except.ok (Expr.structSet objE f.index value_e first_set, st3)

/-- MIRGenerator::var: a resolved variable loads; otherwise a type of
that name becomes a TypeGet; otherwise the name is undefined. -/
def varLower (ctx : Ctx) (st : GenState) (name : Token) : Res (Expr × GenState) :=
  match findVar ctx st name with
  | some var => Except.ok (Expr.varGet var, st)
  | Option.none =>
    match alookup name.lexeme ctx.types with
    | some t => Except.ok (Expr.typeGet t, st)
    | Option.none => Except.error (GErr.varNotDefined name.lexeme)

/-- MIRGenerator::var_def: lower the initializer; its type must be
assignable; define the variable and emit its first store. -/
def varDefLower (lower : Lower) (ctx : Ctx) (st : GenState)
    (name : Token) (mutable : Bool) (initializer : AST) : Res (Expr × GenState) := do
  let (init, st1) ← lower st initializer
  let type_ := init.getType ctx
  if type_.is_assignable = true then
    let (var, st2) := defineVariable st1 name mutable type_
    Except.ok (Expr.store var init true, st2)
  else
    Except.error (GErr.cannotAssignType type_)

/-- MIRGenerator::expression: dispatch an AST expression to its lowering
(gen_expr.rs). The embedding passes itself as the continuation for
sub-expressions, with a fuel argument for termination; fuel exhaustion
has no source counterpart. -/
def expression (ctx : Ctx) : Nat → GenState → AST → Res (Expr × GenState)
  | 0, _, _ => Except.error GErr.outOfFuel
  | fuel + 1, st, a =>
    let lower : Lower := expression ctx fuel
    match a with
    | AST.assignment name value => assignmentLower lower ctx st name value
    | AST.binary l op r => do
      let (le, st1) ← lower st l
      let (re, st2) ← lower st1 r
      let e ← binaryMir ctx le op re
      Except.ok (e, st2)
    | AST.block es => blockLower lower st es
    | AST.call c args => callLower lower ctx st c args
    | AST.get o n => getLower lower ctx st o n
    | AST.ifE c t e => ifLower lower ctx st c t e
    | AST.literal l => Except.ok (Expr.literal l, st)
    | AST.set o n v => setLower lower ctx st o n v
    | AST.var t => varLower ctx st t
    | AST.varDef n m i => varDefLower lower ctx st n m i

/-- One constructor of a class as generate_constructors reads it: the
declared parameters (name, optional explicit type; a parameter without
a type binds the class member of its name) and the body. -/
structure CtorInfo where
  parameters : List (String × Option GType)
  body : AST

/-- MIRGenerator::set_uninitialized_members: clear the set and fill it
with every class member that is neither bound by a type-less
constructor parameter of its name nor carries a default value. -/
def setUninitializedMembers (st : GenState) (ctor : CtorInfo)
    (class_mems : List ClassMember) : GenState :=
  { st with uninitialized_this_members :=
      class_mems.filter (fun mem =>
        !((ctor.parameters.filter (fun p => p.2.isNone)).any
            (fun p => decide (p.1 = mem.name))) &&
        !mem.has_default_value) }

/-- MIRGenerator::check_no_uninitialized: error if any member is still
uninitialized. -/
def checkNoUninitialized (st : GenState) : Res Unit :=
  if st.uninitialized_this_members = [] then Except.ok ()
  else Except.error GErr.uninitAfterConstructor

/-- The parameter insertion loop of MIRGenerator::prepare_function: each
parameter enters the fresh scope; redefinition is an error (the source
mutates before reporting). -/
def insertParams : GenState → List Variable → Res GenState
  | st, [] => Except.ok st
  | st, p :: ps =>
    let (was_defined, st1) := st.insertScoped p
    if was_defined then Except.error (GErr.redefinedVariable p.name)
    else insertParams st1 ps

/-- MIRGenerator::prepare_function restricted to its scope handling: a
fresh scope receiving the function's parameters (block bookkeeping is
not modelled; insert_at_ptr only appends to it). -/
def prepareFunction (st : GenState) (params : List Variable) : Res GenState :=
  insertParams (beginScope st) params

/-- One iteration of MIRGenerator::generate_constructors: prepare the
constructor function, compute the uninitialized member set, lower the
body, close the scope and check that no member is left
uninitialized. -/
def generateConstructor (ctx : Ctx) (fuel : Nat) (st : GenState)
    (fn_params : List Variable) (ctor : CtorInfo) (class_mems : List ClassMember) :
    Res (Expr × GenState) := do
  let st1 ← prepareFunction st fn_params
  let st2 := setUninitializedMembers st1 ctor class_mems
  let (body, st3) ← expression ctx fuel st2 ctor.body
  let st4 := endScope st3
  match checkNoUninitialized st4 with
  | Except.error e => Except.error e
  | Except.ok _ => Except.ok (body, st4)

/-- A module path a/b/c as a list of segments (common::ModPath of the
missing common crate). -/
abbrev ModPath : Type := List String

/-- Modelled from the spec: ModPath::is of the missing common crate
compares a path against the given segments (spec section 4.4: Private is
visible only from the declaring module itself). -/
def ModPath.is (p : ModPath) (parts : List String) : Bool :=
  decide (p = parts)

/-- Declaration visibilities (crates/gir-nodes/src/declaration.rs). -/
inductive Visibility where
  | private_
  | module
  | public
  deriving DecidableEq, Repr

/-- Visibility::from of crates/gir-nodes/src/declaration.rs: Private
requires the accessing path to be the declaring path; Module compares
the first (top-level) segments (the source indexes parts()[0], which
panics on an empty path; headD stands in for that unreachable case);
Public accepts everything. -/
def Visibility.from_ (v : Visibility) (own frm : ModPath) : Bool :=
  match v with
  | Visibility.private_ => frm.is own
  | Visibility.module => decide (frm.headD "" = own.headD "")
  | Visibility.public => true

/-- The visibility-relevant data of a Function or ADT declaration: its
visibility and the path of the module that owns it. -/
structure DeclInfo where
  visibility : Visibility
  module_path : ModPath
  deriving DecidableEq, Repr

/-- gir-nodes Declaration: a function or an ADT (each delegating
visible() to its visibility against its module's path). -/
inductive Declaration where
  | function (f : DeclInfo)
  | adt (a : DeclInfo)
  deriving DecidableEq, Repr

/-- The declaring module's path of a declaration. -/
def Declaration.modulePath : Declaration → ModPath
  | Declaration.function f => f.module_path
  | Declaration.adt a => a.module_path

/-- The visibility of a declaration. -/
def Declaration.visibility : Declaration → Visibility
  | Declaration.function f => f.visibility
  | Declaration.adt a => a.visibility

/-- Declaration::visible of crates/gir-nodes/src/declaration.rs:
delegate to Visibility::from against the declaring module's path. -/
def Declaration.visible (d : Declaration) (frm : ModPath) : Bool :=
  match d with
  | Declaration.function f => f.visibility.from_ f.module_path frm
  | Declaration.adt a => a.visibility.from_ a.module_path frm

/-- A lexeme of the parser front-end: its skippability classification
(whitespace and comments, SyntaxKind::should_skip of the missing syntax
crate) and its source text. The kind beyond skippability does not
influence printing and is carried as a number. -/
structure Lexeme where
  kind : Nat
  shouldSkip : Bool
  text : String
  deriving DecidableEq, Repr

/-- Parser events (parser::util::event::Event of the missing util
module, reconstructed from src/parser/src/lib.rs and spec section
4.2). -/
inductive Event where
  | startNode (kind : Nat)
  | startNodeAt (checkpoint : Nat) (kind : Nat)
  | addToken (kind : Nat) (text : String)
  | finishNode
  deriving DecidableEq, Repr

/-- The parser's observable state: the source position and the emitted
event stream (src/parser/src/lib.rs). -/
structure PState where
  pos : Nat
  events : List Event

/-- The primitive source-consuming steps of Parser (lib.rs): a
skip_whitespace iteration advances past a skippable lexeme without
emitting anything; advance consumes the current (after skipping,
non-skippable) lexeme and emits AddToken for it; every other operation
(start_node, start_node_at, end_node) appends a non-token event and
leaves the source alone. Every parsing function of the grammar is a
sequence of these. -/
inductive PStep (L : List Lexeme) : PState → PState → Prop
  | skip (s : PState) (lx : Lexeme)
      (h : L.get? s.pos = some lx) (hs : lx.shouldSkip = true) :
      PStep L s ⟨s.pos + 1, s.events⟩
  | advance (s : PState) (lx : Lexeme)
      (h : L.get? s.pos = some lx) (hs : lx.shouldSkip = false) :
      PStep L s ⟨s.pos + 1, s.events ++ [Event.addToken lx.kind lx.text]⟩
  | emit (s : PState) (e : Event) (he : ∀ k t, e ≠ Event.addToken k t) :
      PStep L s ⟨s.pos, s.events ++ [e]⟩

/-- A complete parser run: starting from position 0 with no events,
finishing only when the source has no next lexeme (the parse loop of
Parser::parse runs until has_next is false). -/
def ParserRun (L : List Lexeme) (s : PState) : Prop :=
  Relation.ReflTransGen (PStep L) ⟨0, []⟩ s ∧ ¬ s.pos < L.length

/-- Modelled from the spec: the replay of the Sink of the missing
parser::util::sink module, restricted to the emitted token texts. Spec
section 4.2: the whitespace and comment lexemes the parser skipped are
still emitted into the tree by the sink. Replaying the events against
the full lexeme list, each AddToken first flushes the skippable lexemes
in front of the consumed one; node structure events contribute no text.
Returns the emitted texts in order and the lexeme cursor after the
replay. -/
def sinkRun (L : List Lexeme) : Nat → List Event → List String × Nat
  | cursor, [] => ([], cursor)
  | cursor, e :: rest =>
    match e with
    | Event.addToken _ t =>
      let trivia := (L.drop cursor).takeWhile (fun lx => lx.shouldSkip)
      let r := sinkRun L (cursor + trivia.length + 1) rest
      (trivia.map (fun lx => lx.text) ++ t :: r.1, r.2)
    | _ => sinkRun L cursor rest

/-- Modelled from the spec: printing the green tree built by the sink.
The print is the concatenation of its token texts in order: the
replayed events plus a final flush of the trailing skippable
lexemes. -/
def sinkPrint (L : List Lexeme) (events : List Event) : String :=
  String.join ((sinkRun L 0 events).1 ++
    (((L.drop (sinkRun L 0 events).2).takeWhile (fun lx => lx.shouldSkip)).map
      (fun lx => lx.text)))

/-- The sink replay invariant that every reachable parser state keeps:
the replay cursor trails the source position, everything before the
cursor has been emitted verbatim, and the gap between cursor and
position holds only skippable lexemes. -/
def SinkInv (L : List Lexeme) (s : PState) : Prop :=
  (sinkRun L 0 s.events).2 ≤ s.pos ∧ s.pos ≤ L.length ∧
  (sinkRun L 0 s.events).1 =
    (L.take (sinkRun L 0 s.events).2).map (fun lx => lx.text) ∧
  ∀ i, (sinkRun L 0 s.events).2 ≤ i → i < s.pos →
    ∃ lx, L.get? i = some lx ∧ lx.shouldSkip = true

mutual

/-- Every Block subterm of the expression holds at least one expression
(the invariant documented on gir::nodes Expr::Block, which get_type and
get_token rely on when they unwrap the last and first element). -/
def Expr.blocksNE : Expr → Bool
  | Expr.block es => !es.isEmpty && Expr.blocksNEList es
  | Expr.literal _ => true
  | Expr.varGet _ => true
  | Expr.store _ v _ => v.blocksNE
  | Expr.binary l _ r => l.blocksNE && r.blocksNE
  | Expr.unary r _ => r.blocksNE
  | Expr.call c args => c.blocksNE && Expr.blocksNEList args
  | Expr.callDyn _ _ args => Expr.blocksNEList args
  | Expr.ifE c t e _ => c.blocksNE && t.blocksNE && e.blocksNE
  | Expr.switch brs e _ => Expr.blocksNEPairs brs && e.blocksNE
  | Expr.loop c b e _ => c.blocksNE && b.blocksNE && e.blocksNE
  | Expr.cast i _ => i.blocksNE
  | Expr.structGet o _ => o.blocksNE
  | Expr.structSet o _ v _ => o.blocksNE && v.blocksNE
  | Expr.allocate _ _ args => Expr.blocksNEList args
  | Expr.typeGet _ => true

/-- blocksNE over a list of expressions. -/
def Expr.blocksNEList : List Expr → Bool
  | [] => true
  | e :: es => e.blocksNE && Expr.blocksNEList es

/-- blocksNE over switch branches. -/
def Expr.blocksNEPairs : List (Expr × Expr) → Bool
  | [] => true
  | (a, b) :: rest => a.blocksNE && b.blocksNE && Expr.blocksNEPairs rest

end

/-- Follows the spec's words (section 4.5, smart casts): walk the
condition tree, descending through `and`; collect every conjunct
`x is T` whose left side is a plain variable read, as the read variable
together with the tested type. Stated independently of find_casts to
compare the implementation against the specification. -/
def specConjunctCasts (ctx : Ctx) : Expr → List (Variable × GType)
  | Expr.binary left operator right =>
    match operator with
    | TType.and_ => specConjunctCasts ctx left ++ specConjunctCasts ctx right
    | TType.is_ =>
      match left with
      | Expr.varGet v =>
        match (right.getType ctx).as_type with
        | some t => [(v, t)]
        | Option.none => []
      | _ => []
    | _ => []
  | _ => []

/-- Sequential lowering of a list of expressions by a continuation,
threading the state: the relation between arguments and the expressions
they lower to, used to state how generate_func_args treats each
argument position. -/
inductive Lowers (lower : Lower) : GenState → List AST → List Expr → GenState → Prop
  | nil (st : GenState) : Lowers lower st [] [] st
  | cons (st : GenState) (a : AST) (e : Expr) (st1 : GenState)
      (rest : List AST) (es : List Expr) (st2 : GenState)
      (h : lower st a = Except.ok (e, st1))
      (hrest : Lowers lower st1 rest es st2) :
      Lowers lower st (a :: rest) (e :: es) st2

/-- The expression contains Expr::Block es somewhere inside (including
itself). -/
inductive HasBlock : Expr → List Expr → Prop
  | here (es : List Expr) : HasBlock (Expr.block es) es
  | blockElem (es : List Expr) (e : Expr) (bs : List Expr)
      (hm : e ∈ es) (h : HasBlock e bs) : HasBlock (Expr.block es) bs
  | storeVal (v : Variable) (val : Expr) (fs : Bool) (bs : List Expr)
      (h : HasBlock val bs) : HasBlock (Expr.store v val fs) bs
  | binaryL (l : Expr) (op : TType) (r : Expr) (bs : List Expr)
      (h : HasBlock l bs) : HasBlock (Expr.binary l op r) bs
  | binaryR (l : Expr) (op : TType) (r : Expr) (bs : List Expr)
      (h : HasBlock r bs) : HasBlock (Expr.binary l op r) bs
  | unaryR (r : Expr) (op : TType) (bs : List Expr)
      (h : HasBlock r bs) : HasBlock (Expr.unary r op) bs
  | callCallee (c : Expr) (args : List Expr) (bs : List Expr)
      (h : HasBlock c bs) : HasBlock (Expr.call c args) bs
  | callArg (c : Expr) (args : List Expr) (e : Expr) (bs : List Expr)
      (hm : e ∈ args) (h : HasBlock e bs) : HasBlock (Expr.call c args) bs
  | callDynArg (i idx : Nat) (args : List Expr) (e : Expr) (bs : List Expr)
      (hm : e ∈ args) (h : HasBlock e bs) : HasBlock (Expr.callDyn i idx args) bs
  | ifCond (c t e : Expr) (pt : Option GType) (bs : List Expr)
      (h : HasBlock c bs) : HasBlock (Expr.ifE c t e pt) bs
  | ifThen (c t e : Expr) (pt : Option GType) (bs : List Expr)
      (h : HasBlock t bs) : HasBlock (Expr.ifE c t e pt) bs
  | ifElse (c t e : Expr) (pt : Option GType) (bs : List Expr)
      (h : HasBlock e bs) : HasBlock (Expr.ifE c t e pt) bs
  | switchBranchL (brs : List (Expr × Expr)) (el : Expr) (pt : Option GType)
      (b : Expr × Expr) (bs : List Expr) (hm : b ∈ brs)
      (h : HasBlock b.1 bs) : HasBlock (Expr.switch brs el pt) bs
  | switchBranchR (brs : List (Expr × Expr)) (el : Expr) (pt : Option GType)
      (b : Expr × Expr) (bs : List Expr) (hm : b ∈ brs)
      (h : HasBlock b.2 bs) : HasBlock (Expr.switch brs el pt) bs
  | switchElse (brs : List (Expr × Expr)) (el : Expr) (pt : Option GType)
      (bs : List Expr) (h : HasBlock el bs) : HasBlock (Expr.switch brs el pt) bs
  | loopCond (c b e : Expr) (pt : Option GType) (bs : List Expr)
      (h : HasBlock c bs) : HasBlock (Expr.loop c b e pt) bs
  | loopBody (c b e : Expr) (pt : Option GType) (bs : List Expr)
      (h : HasBlock b bs) : HasBlock (Expr.loop c b e pt) bs
  | loopElse (c b e : Expr) (pt : Option GType) (bs : List Expr)
      (h : HasBlock e bs) : HasBlock (Expr.loop c b e pt) bs
  | castInner (i : Expr) (t : GType) (bs : List Expr)
      (h : HasBlock i bs) : HasBlock (Expr.cast i t) bs
  | structGetObj (o : Expr) (f : ClassMember) (bs : List Expr)
      (h : HasBlock o bs) : HasBlock (Expr.structGet o f) bs
  | structSetObj (o : Expr) (idx : Nat) (v : Expr) (fs : Bool) (bs : List Expr)
      (h : HasBlock o bs) : HasBlock (Expr.structSet o idx v fs) bs
  | structSetVal (o : Expr) (idx : Nat) (v : Expr) (fs : Bool) (bs : List Expr)
      (h : HasBlock v bs) : HasBlock (Expr.structSet o idx v fs) bs
  | allocateArg (t : GType) (c : Variable) (args : List Expr) (e : Expr)
      (bs : List Expr) (hm : e ∈ args) (h : HasBlock e bs) :
      HasBlock (Expr.allocate t c args) bs

/-- A padding function entry for the witness contexts. -/
def blankFunc : FuncInfo :=
  { name := "", parameters := [], ret_type := GType.none, variadic := false }

/-- A minimal context with empty tables, used by concrete witness
evaluations. -/
def ctx0 : Ctx :=
  { funcs := fun _ => blankFunc
    closures := fun _ => { parameters := [], ret_type := GType.none }
    classes := fun _ => { name := "", members := [], methods := [], constructors := [] }
    ifaces := fun _ => { methods := [] }
    iface_impls := []
    get_op_iface := fun _ => 0
    globals := []
    types := [] }

/-- An empty generator state. -/
def st0 : GenState :=
  { environments := [], fn_variables := [], uninitialized_this_members := [] }

/-- The lone field of the witness class C. -/
def memF : ClassMember :=
  { name := "f", mutable := false, type_ := GType.i64, index := 0,
    has_default_value := false }

/-- The method variable of the witness class C. -/
def varM : Variable := { mutable := false, type_ := GType.function 1, name := "C:m" }

/-- The constructor variable of the witness class C. -/
def varCtor : Variable := { mutable := false, type_ := GType.function 2, name := "C:new" }

/-- A small populated context for concrete witness evaluations: a class
C with one immutable i64 field f, a method m, a constructor, a variadic
function f, an operator implementation on C taking an i64, and an
interface implementation on i64 for interface 9. -/
def ctxW : Ctx :=
  { funcs := fun fid =>
      match fid with
      | 1 => { name := "C:m"
               parameters := [{ mutable := false, type_ := GType.class_ 0, name := "this" },
                              { mutable := false, type_ := GType.i64, name := "p" }]
               ret_type := GType.i64, variadic := false }
      | 2 => { name := "C:new"
               parameters := [{ mutable := false, type_ := GType.class_ 0, name := "this" },
                              { mutable := false, type_ := GType.i64, name := "v" }]
               ret_type := GType.class_ 0, variadic := false }
      | 3 => { name := "f"
               parameters := [{ mutable := false, type_ := GType.i64, name := "a" }]
               ret_type := GType.i64, variadic := true }
      | 4 => { name := "g"
               parameters := [{ mutable := false, type_ := GType.interface 9, name := "a" }]
               ret_type := GType.none, variadic := false }
      | _ => blankFunc
    closures := fun _ => { parameters := [], ret_type := GType.none }
    classes := fun cid =>
      match cid with
      | 0 => { name := "C", members := [memF], methods := [("m", varM)],
               constructors := [varCtor] }
      | _ => { name := "", members := [], methods := [], constructors := [] }
    ifaces := fun _ => { methods := [] }
    iface_impls :=
      [(GType.class_ 0,
        { interfaces := [(GType.interface 7,
            { iface_proto := some 5, methods := [("add", varM)] })]
          methods := [("m", varM)] }),
       (GType.i64,
        { interfaces := [(GType.interface 9,
            { iface_proto := Option.none, methods := [] })]
          methods := [] })]
    get_op_iface := fun _ => 5
    globals := [("o", { mutable := false, type_ := GType.class_ 0, name := "o" }),
                ("x", { mutable := true, type_ := GType.i64, name := "x" }),
                ("y", { mutable := false, type_ := GType.i64, name := "y" }),
                ("f", { mutable := false, type_ := GType.function 3, name := "f" }),
                ("g", { mutable := false, type_ := GType.function 4, name := "g" })]
    types := [("C", GType.class_ 0)] }

/-- A generator state inside a constructor of the witness class C, with
its field f still uninitialized. -/
def stC : GenState :=
  { environments := [], fn_variables := [], uninitialized_this_members := [memF] }

/-- A minimal lowering continuation for concrete witness evaluations:
lowers literal AST nodes only. -/
def lowerLit : Lower := fun st a =>
  match a with
  | AST.literal l => Except.ok (Expr.literal l, st)
  | _ => Except.error GErr.outOfFuel

/-! The theorems: one per claim, with shared helper lemmas. -/

/-- C7: a declaration with Private visibility is visible exactly from
its declaring module; with Module visibility exactly from modules whose
first (top-level) path segment equals the declarer's; with Public
visibility from every module. -/
theorem c7_visibility (d : Declaration) (frm : ModPath)
    (hfrm : frm ≠ []) (hown : d.modulePath ≠ []) :
    (d.visibility = Visibility.private_ →
      (d.visible frm = true ↔ frm = d.modulePath)) ∧
    (d.visibility = Visibility.module →
      (d.visible frm = true ↔ frm.head? = d.modulePath.head?)) ∧
    (d.visibility = Visibility.public → d.visible frm = true) := by
  obtain ⟨a, as, rfl⟩ : ∃ a as, frm = a :: as := by
    cases frm with
    | nil => exact absurd rfl hfrm
    | cons a as => exact ⟨a, as, rfl⟩
  cases d with
  | function f =>
    obtain ⟨v, own⟩ := f
    obtain ⟨b, bs, rfl⟩ : ∃ b bs, own = b :: bs := by
      cases own with
      | nil => exact absurd rfl hown
      | cons b bs => exact ⟨b, bs, rfl⟩
    cases v <;>
      simp [Declaration.visible, Declaration.visibility, Declaration.modulePath,
        Visibility.from_, ModPath.is]
  | adt f =>
    obtain ⟨v, own⟩ := f
    obtain ⟨b, bs, rfl⟩ : ∃ b bs, own = b :: bs := by
      cases own with
      | nil => exact absurd rfl hown
      | cons b bs => exact ⟨b, bs, rfl⟩
    cases v <;>
      simp [Declaration.visible, Declaration.visibility, Declaration.modulePath,
        Visibility.from_, ModPath.is]

/-- Witness for C7 at concrete module paths. -/
theorem c7_visibility_witness :
    (["a", "b"] : ModPath) ≠ [] ∧
    (Declaration.function
      { visibility := Visibility.module, module_path := ["a", "c"] }).modulePath ≠ [] ∧
    ((Declaration.function
        { visibility := Visibility.module, module_path := ["a", "c"] }).visible
        ["a", "b"] = true ↔
      (["a", "b"] : ModPath).head? =
      (Declaration.function
        { visibility := Visibility.module, module_path := ["a", "c"] }).modulePath.head?) := by
  refine ⟨by decide, by decide, ?_⟩
  exact (c7_visibility
    (Declaration.function { visibility := Visibility.module, module_path := ["a", "c"] })
    ["a", "b"] (by decide) (by decide)).2.1 rfl

/-- Bind of a successful generator result reduces. -/
lemma res_bind_ok {α β : Type} (a : α) (f : α → Res β) :
    (Except.ok a >>= f : Res β) = f a := rfl

/-- Bind of a failed generator result short-circuits. -/
lemma res_bind_error {α β : Type} (err : GErr) (f : α → Res β) :
    ((Except.error err : Res α) >>= f) = Except.error err := rfl

/-- The phi flag computed by if_ marks exactly the agreeing non-None
branch types. -/
lemma phi_flag_spec (th el t : GType) :
    ((if (decide (th = el) && (decide (th ≠ GType.none) || decide (el ≠ GType.none))) = true
      then some th else (Option.none : Option GType)) = some t) ↔
    (th = t ∧ el = t ∧ t ≠ GType.none) := by
  by_cases h1 : th = el
  · subst h1
    by_cases h2 : th = GType.none
    · subst h2
      simp
      exact fun h => h.symm
    · simp [h2]
      intro h
      subst h
      exact fun hc => h2 hc
  · simp [h1]
    intro ht hel
    exact absurd (ht.trans hel.symm) h1

/-- C1: lowering an if produces an If whose phi type is some t exactly
when both branch types equal t and t is not None, with an omitted else
branch lowered to the None literal; and get_type of If, Switch and Loop
returns the phi type when present and None otherwise. -/
theorem c1_if_phi_type (lower : Lower) (ctx : Ctx) (st : GenState)
    (condition then_branch : AST) (else_branch : Option AST)
    (e : Expr) (st_out : GenState)
    (h : ifLower lower ctx st condition then_branch else_branch =
      Except.ok (e, st_out)) :
    (∃ cond then_v else_v phi_type,
      e = Expr.ifE cond then_v else_v phi_type ∧
      (∀ t, phi_type = some t ↔
        then_v.getType ctx = t ∧ else_v.getType ctx = t ∧ t ≠ GType.none) ∧
      (else_branch = Option.none → else_v = Expr.literal Lit.none)) ∧
    (∀ c tv ev pt, (Expr.ifE c tv ev pt).getType ctx =
      (match pt with | some ty => ty | Option.none => GType.none)) ∧
    (∀ brs ev pt, (Expr.switch brs ev pt).getType ctx =
      (match pt with | some ty => ty | Option.none => GType.none)) ∧
    (∀ c b ev pt, (Expr.loop c b ev pt).getType ctx =
      (match pt with | some ty => ty | Option.none => GType.none)) := by
  refine ⟨?_, fun c tv ev pt => by cases pt <;> rfl,
    fun brs ev pt => by cases pt <;> rfl,
    fun c b ev pt => by cases pt <;> rfl⟩
  unfold ifLower at h
  cases hc : lower st condition with
  | error err => rw [hc] at h; exact absurd h (by simp [res_bind_error])
  | ok p =>
    obtain ⟨cond, st1⟩ := p
    rw [hc, res_bind_ok] at h
    dsimp only at h
    by_cases hb : cond.getType ctx = GType.bool
    · rw [if_neg (fun hcon => hcon hb)] at h
      obtain ⟨tb, st3, hsc⟩ : ∃ a b, smartCasts ctx (beginScope st1) cond = (a, b) :=
        ⟨_, _, rfl⟩
      rw [hsc] at h
      dsimp only at h
      cases ht : lower st3 then_branch with
      | error err => rw [ht] at h; exact absurd h (by simp [res_bind_error])
      | ok q =>
        obtain ⟨then_e, st4⟩ := q
        rw [ht, res_bind_ok] at h
        dsimp only at h
        cases else_branch with
        | none =>
          rw [res_bind_ok] at h
          dsimp only at h
          simp only [Except.ok.injEq, Prod.mk.injEq] at h
          obtain ⟨he, _⟩ := h
          subst he
          exact ⟨cond, _, _, _, rfl, fun t => phi_flag_spec _ _ t, fun _ => rfl⟩
        | some eb =>
          dsimp only at h
          cases he2 : lower (endScope st4) eb with
          | error err => rw [he2] at h; exact absurd h (by simp [res_bind_error])
          | ok r =>
            obtain ⟨else_v, st6⟩ := r
            rw [he2, res_bind_ok] at h
            dsimp only at h
            simp only [Except.ok.injEq, Prod.mk.injEq] at h
            obtain ⟨he, _⟩ := h
            subst he
            exact ⟨cond, _, _, _, rfl, fun t => phi_flag_spec _ _ t,
              fun hcontra => by cases hcontra⟩
    · rw [if_pos hb] at h
      simp at h

/-- Witness for C1: a concrete if with both branches of type i64 lowers
with phi type i64. -/
theorem c1_if_phi_type_witness :
    (ifLower lowerLit ctx0 st0 (AST.literal (Lit.bool true)) (AST.literal (Lit.i64 1))
        (some (AST.literal (Lit.i64 2))) =
      Except.ok (Expr.ifE (Expr.literal (Lit.bool true))
        (Expr.block [Expr.literal (Lit.i64 1)]) (Expr.literal (Lit.i64 2))
        (some GType.i64), st0)) ∧
    (∃ cond then_v else_v phi_type,
      Expr.ifE (Expr.literal (Lit.bool true)) (Expr.block [Expr.literal (Lit.i64 1)])
          (Expr.literal (Lit.i64 2)) (some GType.i64) =
        Expr.ifE cond then_v else_v phi_type ∧
      (∀ t, phi_type = some t ↔
        then_v.getType ctx0 = t ∧ else_v.getType ctx0 = t ∧ t ≠ GType.none) ∧
      (some (AST.literal (Lit.i64 2)) = Option.none → else_v = Expr.literal Lit.none)) :=
  ⟨rfl, (c1_if_phi_type lowerLit ctx0 st0 (AST.literal (Lit.bool true))
    (AST.literal (Lit.i64 1)) (some (AST.literal (Lit.i64 2))) _ _ rfl).1⟩

/-- C2 counterexample: with no operator implementations registered at
all, lowering the binary `1 is i32` (whose operand types i64 and
Type(i32) are not the same numeric type) succeeds with Expr::Binary
instead of searching the implementation table and failing; this refutes
the claim that every binary over non-equal-numeric operand types is
resolved through the operator interface search. -/
theorem c2_counterexample :
    ctx0.iface_impls = [] ∧
    (Expr.literal (Lit.i64 1)).getType ctx0 ≠ (Expr.typeGet GType.i32).getType ctx0 ∧
    binaryMir ctx0 (Expr.literal (Lit.i64 1)) { t_type := TType.is_, lexeme := "is" }
        (Expr.typeGet GType.i32) =
      Except.ok (Expr.binary (Expr.literal (Lit.i64 1)) TType.is_
        (Expr.typeGet GType.i32)) :=
  ⟨rfl, by decide, rfl⟩

/-- Unfolding of methodSecondParam: it answers exactly with the type of
the second parameter of the method's function signature. -/
lemma methodSecondParam_eq_some (ctx : Ctx) (m : Variable) (rt : GType) :
    methodSecondParam ctx m = some rt ↔
    ∃ fid p, m.type_ = GType.function fid ∧
      (ctx.funcs fid).parameters.get? 1 = some p ∧ p.type_ = rt := by
  unfold methodSecondParam
  cases hf : m.type_ with
  | function fid =>
    dsimp only
    cases hp : (ctx.funcs fid).parameters.get? 1 with
    | none =>
      have hp2 : (ctx.funcs fid).parameters[1]? = Option.none := by
        rw [← List.get?_eq_getElem?]; exact hp
      simp [hp2]
    | some p =>
      have hp2 : (ctx.funcs fid).parameters[1]? = some p := by
        rw [← List.get?_eq_getElem?]; exact hp
      simp [hp2]
  | none => simp
  | any => simp
  | bool => simp
  | i8 => simp
  | i16 => simp
  | i32 => simp
  | i64 => simp
  | u8 => simp
  | u16 => simp
  | u32 => simp
  | u64 => simp
  | f32 => simp
  | f64 => simp
  | class_ id => simp
  | interface id => simp
  | closure id => simp
  | closureCaptured id => simp
  | typeval inner => simp

/-- The search loop of the operator overloading lookup only answers
with the first method of an impl block for the wanted prototype whose
second parameter has the right operand's type. -/
lemma findOpMethod_some (ctx : Ctx) (proto : Nat) (rt : GType) :
    ∀ (l : List (GType × ImplBlock)) (m : Variable), findOpMethod ctx proto rt l = some m →
    ∃ key im, (key, im) ∈ l ∧ im.iface_proto = some proto ∧
      (∃ mname, im.methods.head? = some (mname, m)) ∧
      methodSecondParam ctx m = some rt := by
  intro l
  induction l with
  | nil => intro m h; cases h
  | cons hd tl ih =>
    intro m h
    obtain ⟨key, im⟩ := hd
    unfold findOpMethod at h
    by_cases hp : im.iface_proto = some proto
    · rw [if_pos hp] at h
      cases hm : im.methods.head? with
      | none =>
        rw [hm] at h
        obtain ⟨k2, i2, hmem, rest⟩ := ih m h
        exact ⟨k2, i2, List.mem_cons_of_mem _ hmem, rest⟩
      | some pair =>
        obtain ⟨mname, method⟩ := pair
        rw [hm] at h
        dsimp only at h
        by_cases hsp : methodSecondParam ctx method = some rt
        · rw [if_pos hsp] at h
          cases h
          exact ⟨key, im, List.mem_cons_self _ _, hp, ⟨mname, hm⟩, hsp⟩
        · rw [if_neg hsp] at h
          obtain ⟨k2, i2, hmem, rest⟩ := ih m h
          exact ⟨k2, i2, List.mem_cons_of_mem _ hmem, rest⟩
    · rw [if_neg hp] at h
      obtain ⟨k2, i2, hmem, rest⟩ := ih m h
      exact ⟨k2, i2, List.mem_cons_of_mem _ hmem, rest⟩

/-- C2 (amended): equal numeric operand types, and an `is` test against
a reified type, produce Expr::Binary; every other binary resolves
through the operator overloading search, which answers with a method of
an implementation of the operator's intrinsic interface for the left
type whose second parameter has the right type, emitted as a call on
[left, right] (wrapped in a logical not for !=); when the search finds
nothing, lowering fails. -/
theorem c2_binary_lowering (ctx : Ctx) (left : Expr) (operator : Token) (right : Expr) :
    ((left.getType ctx = right.getType ctx ∧ (left.getType ctx).is_number = true) ∨
     (operator.t_type = TType.is_ ∧ (right.getType ctx).is_type = true) →
       binaryMir ctx left operator right =
         Except.ok (Expr.binary left operator.t_type right)) ∧
    (¬ ((left.getType ctx = right.getType ctx ∧ (left.getType ctx).is_number = true) ∨
        (operator.t_type = TType.is_ ∧ (right.getType ctx).is_type = true)) →
      (∀ method,
        getOperatorOverloadingMethod ctx operator.t_type (left.getType ctx)
          (right.getType ctx) = some method →
        binaryMir ctx left operator right = Except.ok
          (if operator.t_type = TType.bangEqual
           then Expr.unary (Expr.call (Expr.varGet method) [left, right]) TType.bang
           else Expr.call (Expr.varGet method) [left, right])) ∧
      (getOperatorOverloadingMethod ctx operator.t_type (left.getType ctx)
          (right.getType ctx) = Option.none →
        binaryMir ctx left operator right = Except.error GErr.noOperatorImpl)) ∧
    (∀ lt rt method, getOperatorOverloadingMethod ctx operator.t_type lt rt = some method →
      ∃ impls key im, alookup lt ctx.iface_impls = some impls ∧
        (key, im) ∈ impls.interfaces ∧
        im.iface_proto = some (ctx.get_op_iface operator.t_type) ∧
        (∃ mname, im.methods.head? = some (mname, method)) ∧
        ∃ fid p, method.type_ = GType.function fid ∧
          (ctx.funcs fid).parameters.get? 1 = some p ∧ p.type_ = rt) := by
  refine ⟨?_, ?_, ?_⟩
  · intro hcond
    unfold binaryMir
    rw [if_pos hcond]
  · intro hcond
    constructor
    · intro method hm
      unfold binaryMir
      rw [if_neg hcond, hm]
    · intro hm
      unfold binaryMir
      rw [if_neg hcond, hm]
  · intro lt rt method hm
    unfold getOperatorOverloadingMethod at hm
    cases hl : alookup lt ctx.iface_impls with
    | none => rw [hl] at hm; cases hm
    | some impls =>
      rw [hl] at hm
      obtain ⟨key, im, hmem, hproto, hhead, hsp⟩ :=
        findOpMethod_some ctx _ rt impls.interfaces method hm
      exact ⟨impls, key, im, rfl, hmem, hproto, hhead,
        (methodSecondParam_eq_some ctx method rt).mp hsp⟩

/-- Witness for C2 (amended): in the populated witness context, `o + x`
on a class C and an i64 resolves through the Add implementation of C
to a call of its method. -/
theorem c2_binary_lowering_witness :
    (¬ (((Expr.varGet { mutable := false, type_ := GType.class_ 0, name := "o" }).getType ctxW =
          (Expr.varGet { mutable := true, type_ := GType.i64, name := "x" }).getType ctxW ∧
        ((Expr.varGet { mutable := false, type_ := GType.class_ 0, name := "o" }).getType ctxW).is_number = true) ∨
       ((Token.mk TType.plus "+").t_type = TType.is_ ∧
        ((Expr.varGet { mutable := true, type_ := GType.i64, name := "x" }).getType ctxW).is_type = true))) ∧
    getOperatorOverloadingMethod ctxW TType.plus (GType.class_ 0) GType.i64 = some varM ∧
    binaryMir ctxW (Expr.varGet { mutable := false, type_ := GType.class_ 0, name := "o" })
        (Token.mk TType.plus "+")
        (Expr.varGet { mutable := true, type_ := GType.i64, name := "x" }) =
      Except.ok (Expr.call (Expr.varGet varM)
        [Expr.varGet { mutable := false, type_ := GType.class_ 0, name := "o" },
         Expr.varGet { mutable := true, type_ := GType.i64, name := "x" }]) := by
  refine ⟨by decide, rfl, ?_⟩
  have h := (c2_binary_lowering ctxW
    (Expr.varGet { mutable := false, type_ := GType.class_ 0, name := "o" })
    (Token.mk TType.plus "+")
    (Expr.varGet { mutable := true, type_ := GType.i64, name := "x" })).2.1 (by decide)
  exact h.1 varM rfl

/-- C6: an assignment is permitted exactly when the variable is mutable
and the value has its type, emitting a non-first store; a field set
requires the value to have the field's type and (for an immutable field)
the field to still be in uninitialized_this_members, in which case the
store is emitted with first_store = true and the field leaves the
set. -/
theorem c6_assignment_and_set (lower : Lower) (ctx : Ctx) (st : GenState) :
    (∀ name value var value_e st1,
      findVar ctx st name = some var →
      lower st value = Except.ok (value_e, st1) →
      (((∃ out, assignmentLower lower ctx st name value = Except.ok out) ↔
        (var.mutable = true ∧ value_e.getType ctx = var.type_)) ∧
       (var.mutable = true → value_e.getType ctx = var.type_ →
        assignmentLower lower ctx st name value =
          Except.ok (Expr.store var value_e false, st1)))) ∧
    (∀ object fname fvalue objE f st2 ve st3,
      getField lower ctx st object fname = Except.ok ((objE, Sum.inl f), st2) →
      lower st2 fvalue = Except.ok (ve, st3) →
      (((∃ out, setLower lower ctx st object fname fvalue = Except.ok out) ↔
        (ve.getType ctx = f.type_ ∧
         (f.mutable = true ∨ f ∈ st3.uninitialized_this_members))) ∧
       (ve.getType ctx = f.type_ → f.mutable = false →
        f ∈ st3.uninitialized_this_members →
        ∃ st4, setLower lower ctx st object fname fvalue =
          Except.ok (Expr.structSet objE f.index ve true, st4) ∧
          f ∉ st4.uninitialized_this_members))) := by
  constructor
  · intro name value var value_e st1 hv hlow
    unfold assignmentLower
    rw [hv]
    dsimp only
    rw [hlow, res_bind_ok]
    dsimp only
    by_cases hcond : value_e.getType ctx = var.type_ ∧ var.mutable = true
    · rw [if_pos hcond]
      refine ⟨⟨fun _ => ⟨hcond.2, hcond.1⟩, fun _ => ⟨_, rfl⟩⟩, fun _ _ => rfl⟩
    · rw [if_neg hcond]
      by_cases hm : var.mutable = false
      · rw [if_pos hm]
        constructor
        · constructor
          · intro hout
            obtain ⟨out, hout⟩ := hout
            cases hout
          · intro hc
            exact absurd hc.1 (by simp [hm])
        · intro hmt
          exact absurd hmt (by simp [hm])
      · rw [if_neg hm]
        constructor
        · constructor
          · intro hout
            obtain ⟨out, hout⟩ := hout
            cases hout
          · intro hc
            exact absurd ⟨hc.2, hc.1⟩ hcond
        · intro hmt hty
          exact absurd ⟨hty, hmt⟩ hcond
  · intro object fname fvalue objE f st2 ve st3 hget hlow
    unfold setLower
    rw [hget, res_bind_ok]
    dsimp only
    rw [hlow, res_bind_ok]
    dsimp only
    by_cases hty : ve.getType ctx = f.type_
    · rw [if_neg (fun hcon => hcon hty)]
      by_cases hmu : f.mutable = false ∧ f ∉ st3.uninitialized_this_members
      · rw [if_pos hmu]
        constructor
        · constructor
          · intro hout
            obtain ⟨out, hout⟩ := hout
            cases hout
          · intro hc
            rcases hc.2 with hm | hin
            · exact absurd hm (by simp [hmu.1])
            · exact absurd hin hmu.2
        · intro _ _ hin
          exact absurd hin hmu.2
      · rw [if_neg hmu]
        have hin : f.mutable = true ∨ f ∈ st3.uninitialized_this_members := by
          by_cases hm : f.mutable = true
          · exact Or.inl hm
          · refine Or.inr ?_
            by_contra hni
            exact hmu ⟨by simpa using hm, hni⟩
        constructor
        · exact ⟨fun _ => ⟨hty, hin⟩, fun _ => ⟨_, rfl⟩⟩
        · intro _ _ hinset
          refine ⟨{ st3 with uninitialized_this_members :=
              st3.uninitialized_this_members.filter (fun m => decide (m ≠ f)) }, ?_, ?_⟩
          · have hdec : decide (f ∈ st3.uninitialized_this_members) = true := by
              simpa using hinset
            rw [hdec]
          · intro hcontra
            rcases List.mem_filter.mp hcontra with ⟨_, hdec⟩
            simp at hdec
    · rw [if_pos (by simpa using hty)]
      constructor
      · constructor
        · intro hout
          obtain ⟨out, hout⟩ := hout
          cases hout
        · intro hc
          exact absurd hc.1 hty
      · intro hc
        exact absurd hc hty

/-- Witness for C6 in the witness context: assigning y to the mutable
i64 x succeeds as a plain store, and setting the uninitialized immutable
field f inside a constructor emits a first store and empties the set. -/
theorem c6_assignment_and_set_witness :
    (findVar ctxW stC (Token.generic_identifier "x") =
      some { mutable := true, type_ := GType.i64, name := "x" }) ∧
    (expression ctxW 1 stC (AST.var (Token.generic_identifier "y")) =
      Except.ok (Expr.varGet { mutable := false, type_ := GType.i64, name := "y" }, stC)) ∧
    (assignmentLower (expression ctxW 1) ctxW stC (Token.generic_identifier "x")
        (AST.var (Token.generic_identifier "y")) =
      Except.ok (Expr.store { mutable := true, type_ := GType.i64, name := "x" }
        (Expr.varGet { mutable := false, type_ := GType.i64, name := "y" }) false, stC)) ∧
    (getField (expression ctxW 1) ctxW stC (AST.var (Token.generic_identifier "o"))
        (Token.generic_identifier "f") =
      Except.ok ((Expr.varGet { mutable := false, type_ := GType.class_ 0, name := "o" },
        Sum.inl memF), stC)) ∧
    (∃ st4, setLower (expression ctxW 1) ctxW stC (AST.var (Token.generic_identifier "o"))
        (Token.generic_identifier "f") (AST.var (Token.generic_identifier "y")) =
      Except.ok (Expr.structSet
        (Expr.varGet { mutable := false, type_ := GType.class_ 0, name := "o" })
        memF.index (Expr.varGet { mutable := false, type_ := GType.i64, name := "y" })
        true, st4) ∧
      memF ∉ st4.uninitialized_this_members) := by
  refine ⟨rfl, rfl, ?_, rfl, ?_⟩
  · exact ((c6_assignment_and_set (expression ctxW 1) ctxW stC).1
      (Token.generic_identifier "x") (AST.var (Token.generic_identifier "y"))
      { mutable := true, type_ := GType.i64, name := "x" }
      (Expr.varGet { mutable := false, type_ := GType.i64, name := "y" }) stC
      rfl rfl).2 rfl rfl
  · exact ((c6_assignment_and_set (expression ctxW 1) ctxW stC).2
      (AST.var (Token.generic_identifier "o")) (Token.generic_identifier "f")
      (AST.var (Token.generic_identifier "y"))
      (Expr.varGet { mutable := false, type_ := GType.class_ 0, name := "o" })
      memF stC
      (Expr.varGet { mutable := false, type_ := GType.i64, name := "y" }) stC
      rfl rfl).2 rfl rfl (by decide)

/-- Association lookup over an append: the left list wins. -/
lemma alookup_append {α β : Type} [DecidableEq α] (k : α) (l1 l2 : List (α × β)) :
    alookup k (l1 ++ l2) =
      match alookup k l1 with
      | some v => some v
      | Option.none => alookup k l2 := by
  induction l1 with
  | nil => rfl
  | cons hd tl ih =>
    obtain ⟨k1, v1⟩ := hd
    by_cases hk : k1 = k
    · simp [alookup, hk]
    · simp only [List.cons_append, alookup, if_neg hk]
      exact ih

/-- A successful association lookup returns an entry of the list. -/
lemma alookup_mem {α β : Type} [DecidableEq α] (k : α) :
    ∀ (l : List (α × β)) (v : β), alookup k l = some v → (k, v) ∈ l := by
  intro l
  induction l with
  | nil => intro v h; cases h
  | cons hd tl ih =>
    intro v h
    obtain ⟨k1, v1⟩ := hd
    unfold alookup at h
    by_cases hk : k1 = k
    · rw [if_pos hk] at h
      cases h
      subst hk
      exact List.mem_cons_self _ _
    · rw [if_neg hk] at h
      exact List.mem_cons_of_mem _ (ih v h)

/-- A key present in the list makes the association lookup succeed. -/
lemma alookup_isSome {α β : Type} [DecidableEq α] (k : α) :
    ∀ (l : List (α × β)) (v : β), (k, v) ∈ l → (alookup k l).isSome := by
  intro l
  induction l with
  | nil => intro v h; cases h
  | cons hd tl ih =>
    intro v h
    obtain ⟨k1, v1⟩ := hd
    unfold alookup
    by_cases hk : k1 = k
    · rw [if_pos hk]; rfl
    · rw [if_neg hk]
      rcases List.mem_cons.mp h with heq | hmem
      · cases heq
        exact absurd rfl hk
      · exact ih v hmem

/-- find_casts produces exactly the cast stores of the is-conjuncts of
the condition, appended to the incoming list: each an immutable
variable named after the refined variable, of the tested type,
initialized by a first store of the old variable cast to that type. -/
lemma findCasts_spec (ctx : Ctx) :
    ∀ (cond : Expr) (st : GenState) (list : List Expr),
    (findCasts ctx st list cond).1 = list ++ (specConjunctCasts ctx cond).map
      (fun vt => Expr.store { mutable := false, type_ := vt.2, name := vt.1.name }
        (Expr.cast (Expr.varGet vt.1) vt.2) true)
  | Expr.binary l op r => by
    intro st list
    cases op with
    | and_ =>
      show (findCasts ctx (findCasts ctx st list l).2 (findCasts ctx st list l).1 r).1 = _
      rw [findCasts_spec ctx r, findCasts_spec ctx l]
      simp [specConjunctCasts, List.append_assoc]
    | is_ =>
      cases l with
      | varGet v =>
        simp only [findCasts, specConjunctCasts]
        cases ht : (r.getType ctx).as_type with
        | none => simp
        | some t =>
          simp only [List.map_cons, List.map_nil]
          rfl
      | block es => simp [findCasts, specConjunctCasts]
      | literal lit => simp [findCasts, specConjunctCasts]
      | store v val fs => simp [findCasts, specConjunctCasts]
      | binary a o b => simp [findCasts, specConjunctCasts]
      | unary a o => simp [findCasts, specConjunctCasts]
      | call c args => simp [findCasts, specConjunctCasts]
      | callDyn i idx args => simp [findCasts, specConjunctCasts]
      | ifE c t e pt => simp [findCasts, specConjunctCasts]
      | switch brs e pt => simp [findCasts, specConjunctCasts]
      | loop c b e pt => simp [findCasts, specConjunctCasts]
      | cast i t => simp [findCasts, specConjunctCasts]
      | structGet o f => simp [findCasts, specConjunctCasts]
      | structSet o i v fs => simp [findCasts, specConjunctCasts]
      | allocate t c args => simp [findCasts, specConjunctCasts]
      | typeGet t => simp [findCasts, specConjunctCasts]
    | identifier => simp [findCasts, specConjunctCasts]
    | plus => simp [findCasts, specConjunctCasts]
    | minus => simp [findCasts, specConjunctCasts]
    | star => simp [findCasts, specConjunctCasts]
    | slash => simp [findCasts, specConjunctCasts]
    | or_ => simp [findCasts, specConjunctCasts]
    | equalEqual => simp [findCasts, specConjunctCasts]
    | bangEqual => simp [findCasts, specConjunctCasts]
    | less => simp [findCasts, specConjunctCasts]
    | lessEqual => simp [findCasts, specConjunctCasts]
    | greater => simp [findCasts, specConjunctCasts]
    | greaterEqual => simp [findCasts, specConjunctCasts]
    | bang => simp [findCasts, specConjunctCasts]
    | rightBracket => simp [findCasts, specConjunctCasts]
  | Expr.block es => by intro st list; simp [findCasts, specConjunctCasts]
  | Expr.literal l => by intro st list; simp [findCasts, specConjunctCasts]
  | Expr.varGet v => by intro st list; simp [findCasts, specConjunctCasts]
  | Expr.store v val fs => by intro st list; simp [findCasts, specConjunctCasts]
  | Expr.unary r op => by intro st list; simp [findCasts, specConjunctCasts]
  | Expr.call c args => by intro st list; simp [findCasts, specConjunctCasts]
  | Expr.callDyn i idx args => by intro st list; simp [findCasts, specConjunctCasts]
  | Expr.ifE c t e pt => by intro st list; simp [findCasts, specConjunctCasts]
  | Expr.switch brs e pt => by intro st list; simp [findCasts, specConjunctCasts]
  | Expr.loop c b e pt => by intro st list; simp [findCasts, specConjunctCasts]
  | Expr.cast i t => by intro st list; simp [findCasts, specConjunctCasts]
  | Expr.structGet o f => by intro st list; simp [findCasts, specConjunctCasts]
  | Expr.structSet o i v fs => by intro st list; simp [findCasts, specConjunctCasts]
  | Expr.allocate t c args => by intro st list; simp [findCasts, specConjunctCasts]
  | Expr.typeGet t => by intro st list; simp [findCasts, specConjunctCasts]

/-- The scope binding added by one smart cast. -/
def castBinding (vt : Variable × GType) : String × Variable :=
  (vt.1.name, { mutable := false, type_ := vt.2, name := vt.1.name })

/-- find_casts binds its fresh variables in the topmost scope (most
recent first) and leaves the outer scopes and the uninitialized member
set unchanged. -/
lemma findCasts_env (ctx : Ctx) :
    ∀ (cond : Expr) (st : GenState) (list : List Expr)
      (env : List (String × Variable)) (rest : List (List (String × Variable))),
    st.environments = env :: rest →
    (findCasts ctx st list cond).2.environments =
      (((specConjunctCasts ctx cond).map castBinding).reverse ++ env) :: rest ∧
    (findCasts ctx st list cond).2.uninitialized_this_members =
      st.uninitialized_this_members
  | Expr.binary l op r => by
    intro st list env rest henv
    cases op with
    | and_ =>
      show ((findCasts ctx (findCasts ctx st list l).2 (findCasts ctx st list l).1 r).2.environments = _) ∧ _
      obtain ⟨h1, hu1⟩ := findCasts_env ctx l st list env rest henv
      obtain ⟨h2, hu2⟩ := findCasts_env ctx r (findCasts ctx st list l).2
        (findCasts ctx st list l).1
        (((specConjunctCasts ctx l).map castBinding).reverse ++ env) rest h1
      refine ⟨?_, hu2.trans hu1⟩
      rw [h2]
      simp [specConjunctCasts, List.reverse_append, List.append_assoc]
    | is_ =>
      cases l with
      | varGet v =>
        simp only [findCasts, specConjunctCasts]
        cases ht : (r.getType ctx).as_type with
        | none => simpa using henv
        | some t =>
          dsimp only
          unfold defineVariable GenState.insertScoped GenState.addFunctionVariable
          rw [henv]
          dsimp only
          simp [castBinding]
          rfl
      | block es => simpa [findCasts, specConjunctCasts] using henv
      | literal lit => simpa [findCasts, specConjunctCasts] using henv
      | binary a o b => simpa [findCasts, specConjunctCasts] using henv
      | unary a o => simpa [findCasts, specConjunctCasts] using henv
      | store v val fs => simpa [findCasts, specConjunctCasts] using henv
      | call c args => simpa [findCasts, specConjunctCasts] using henv
      | callDyn i idx args => simpa [findCasts, specConjunctCasts] using henv
      | ifE c t e pt => simpa [findCasts, specConjunctCasts] using henv
      | switch brs e pt => simpa [findCasts, specConjunctCasts] using henv
      | loop c b e pt => simpa [findCasts, specConjunctCasts] using henv
      | cast i t => simpa [findCasts, specConjunctCasts] using henv
      | structGet o f => simpa [findCasts, specConjunctCasts] using henv
      | structSet o i v fs => simpa [findCasts, specConjunctCasts] using henv
      | allocate t c args => simpa [findCasts, specConjunctCasts] using henv
      | typeGet t => simpa [findCasts, specConjunctCasts] using henv
    | identifier => simpa [findCasts, specConjunctCasts] using henv
    | plus => simpa [findCasts, specConjunctCasts] using henv
    | minus => simpa [findCasts, specConjunctCasts] using henv
    | star => simpa [findCasts, specConjunctCasts] using henv
    | slash => simpa [findCasts, specConjunctCasts] using henv
    | or_ => simpa [findCasts, specConjunctCasts] using henv
    | equalEqual => simpa [findCasts, specConjunctCasts] using henv
    | bangEqual => simpa [findCasts, specConjunctCasts] using henv
    | less => simpa [findCasts, specConjunctCasts] using henv
    | lessEqual => simpa [findCasts, specConjunctCasts] using henv
    | greater => simpa [findCasts, specConjunctCasts] using henv
    | greaterEqual => simpa [findCasts, specConjunctCasts] using henv
    | bang => simpa [findCasts, specConjunctCasts] using henv
    | rightBracket => simpa [findCasts, specConjunctCasts] using henv
  | Expr.block es => by intro st list env rest henv; simpa [findCasts, specConjunctCasts] using henv
  | Expr.literal l => by intro st list env rest henv; simpa [findCasts, specConjunctCasts] using henv
  | Expr.varGet v => by intro st list env rest henv; simpa [findCasts, specConjunctCasts] using henv
  | Expr.store v val fs => by intro st list env rest henv; simpa [findCasts, specConjunctCasts] using henv
  | Expr.unary r op => by intro st list env rest henv; simpa [findCasts, specConjunctCasts] using henv
  | Expr.call c args => by intro st list env rest henv; simpa [findCasts, specConjunctCasts] using henv
  | Expr.callDyn i idx args => by intro st list env rest henv; simpa [findCasts, specConjunctCasts] using henv
  | Expr.ifE c t e pt => by intro st list env rest henv; simpa [findCasts, specConjunctCasts] using henv
  | Expr.switch brs e pt => by intro st list env rest henv; simpa [findCasts, specConjunctCasts] using henv
  | Expr.loop c b e pt => by intro st list env rest henv; simpa [findCasts, specConjunctCasts] using henv
  | Expr.cast i t => by intro st list env rest henv; simpa [findCasts, specConjunctCasts] using henv
  | Expr.structGet o f => by intro st list env rest henv; simpa [findCasts, specConjunctCasts] using henv
  | Expr.structSet o i v fs => by intro st list env rest henv; simpa [findCasts, specConjunctCasts] using henv
  | Expr.allocate t c args => by intro st list env rest henv; simpa [findCasts, specConjunctCasts] using henv
  | Expr.typeGet t => by intro st list env rest henv; simpa [findCasts, specConjunctCasts] using henv

/-- C10: every local bound by a smart cast has mutable = false; inside
the scope that find_casts populated, the refined name resolves to such
an immutable variable; and the generator rejects any assignment whose
target resolves to an immutable variable. -/
theorem c10_smart_cast_not_assignable (ctx : Ctx) :
    (∀ st cond v value fs,
      Expr.store v value fs ∈ (smartCasts ctx st cond).1 → v.mutable = false) ∧
    (∀ st cond vt env rest, st.environments = env :: rest →
      vt ∈ specConjunctCasts ctx cond →
      ∃ v, findVar ctx (smartCasts ctx st cond).2
          (Token.generic_identifier vt.1.name) = some v ∧ v.mutable = false) ∧
    (∀ (lower : Lower) st name value var value_e st1,
      findVar ctx st name = some var → var.mutable = false →
      lower st value = Except.ok (value_e, st1) →
      assignmentLower lower ctx st name value =
        Except.error (GErr.varDifferentType name.lexeme)) := by
  refine ⟨?_, ?_, ?_⟩
  · intro st cond v value fs hmem
    unfold smartCasts at hmem
    rw [findCasts_spec ctx cond st []] at hmem
    simp only [List.nil_append, List.mem_map] at hmem
    obtain ⟨vt, _, heq⟩ := hmem
    have hv : v = { mutable := false, type_ := vt.2, name := vt.1.name } := by
      have := heq.symm
      simp only [Expr.store.injEq] at this
      exact this.1
    rw [hv]
  · intro st cond vt env rest henv hmem
    unfold smartCasts
    obtain ⟨henv2, _⟩ := findCasts_env ctx cond st [] env rest henv
    unfold findVar
    rw [henv2]
    have hkey : (vt.1.name, ({ mutable := false, type_ := vt.2, name := vt.1.name } : Variable)) ∈
        ((specConjunctCasts ctx cond).map castBinding).reverse ++ env := by
      refine List.mem_append_left _ ?_
      rw [List.mem_reverse]
      exact List.mem_map.mpr ⟨vt, hmem, rfl⟩
    have hsome := alookup_isSome vt.1.name _ _ hkey
    cases hl : alookup vt.1.name
        (((specConjunctCasts ctx cond).map castBinding).reverse ++ env) with
    | none => rw [hl] at hsome; cases hsome
    | some v =>
      have hv : (vt.1.name, v) ∈
          ((specConjunctCasts ctx cond).map castBinding).reverse ++ env := alookup_mem _ _ _ hl
      have hmut : v.mutable = false := by
        rw [alookup_append] at hl
        cases hl2 : alookup vt.1.name (((specConjunctCasts ctx cond).map castBinding).reverse) with
        | none =>
          have : (alookup vt.1.name
              (((specConjunctCasts ctx cond).map castBinding).reverse)).isSome := by
            refine alookup_isSome vt.1.name _
              ({ mutable := false, type_ := vt.2, name := vt.1.name } : Variable) ?_
            rw [List.mem_reverse]
            exact List.mem_map.mpr ⟨vt, hmem, rfl⟩
          rw [hl2] at this
          cases this
        | some v2 =>
          rw [hl2] at hl
          dsimp only at hl
          have hveq : v2 = v := by injection hl
          have hv2 : (vt.1.name, v2) ∈
              ((specConjunctCasts ctx cond).map castBinding).reverse := alookup_mem _ _ _ hl2
          rw [List.mem_reverse] at hv2
          obtain ⟨vt2, _, heq⟩ := List.mem_map.mp hv2
          have hsnd : v2 = { mutable := false, type_ := vt2.2, name := vt2.1.name } := by
            have := congrArg Prod.snd heq
            simpa [castBinding] using this.symm
          rw [← hveq, hsnd]
      refine ⟨v, ?_, hmut⟩
      have : List.findSome? (fun env => alookup (Token.generic_identifier vt.1.name).lexeme env)
          ((((specConjunctCasts ctx cond).map castBinding).reverse ++ env) :: rest) = some v := by
        rw [List.findSome?_cons]
        have hlex : (Token.generic_identifier vt.1.name).lexeme = vt.1.name := rfl
        rw [hlex, hl]
      rw [this]
  · intro lower st name value var value_e st1 hv hmut hlow
    unfold assignmentLower
    rw [hv]
    dsimp only
    rw [hlow, res_bind_ok]
    dsimp only
    rw [if_neg (fun hc => by rw [hmut] at hc; exact Bool.false_ne_true hc.2)]
    rw [if_pos hmut]

/-- Witness for C10: assigning to the immutable global y is rejected. -/
theorem c10_smart_cast_not_assignable_witness :
    (findVar ctxW st0 (Token.generic_identifier "y") =
      some { mutable := false, type_ := GType.i64, name := "y" }) ∧
    (expression ctxW 1 st0 (AST.literal (Lit.i64 1)) =
      Except.ok (Expr.literal (Lit.i64 1), st0)) ∧
    assignmentLower (expression ctxW 1) ctxW st0 (Token.generic_identifier "y")
        (AST.literal (Lit.i64 1)) =
      Except.error (GErr.varDifferentType "y") := by
  refine ⟨rfl, rfl, ?_⟩
  exact (c10_smart_cast_not_assignable ctxW).2.2 (expression ctxW 1) st0
    (Token.generic_identifier "y") (AST.literal (Lit.i64 1))
    { mutable := false, type_ := GType.i64, name := "y" }
    (Expr.literal (Lit.i64 1)) st0 rfl rfl rfl

/-- C4: lowering an if walks the lowered condition descending only
through `and`; every `x is T` conjunct with a plain variable read on
the left becomes a first store of a fresh immutable local named x of
type T, initialized with the old x cast to T; these stores are
prepended to the then expression inside the scope opened for the then
branch, in which the refined names are bound. -/
theorem c4_smart_casts (lower : Lower) (ctx : Ctx) (st : GenState)
    (condition then_branch : AST) (else_branch : Option AST)
    (e : Expr) (st_out : GenState)
    (h : ifLower lower ctx st condition then_branch else_branch = Except.ok (e, st_out)) :
    ∃ cond st1 then_e st4 else_v phi_ty,
      lower st condition = Except.ok (cond, st1) ∧
      lower (smartCasts ctx (beginScope st1) cond).2 then_branch =
        Except.ok (then_e, st4) ∧
      e = Expr.ifE cond
        (Expr.block ((smartCasts ctx (beginScope st1) cond).1 ++ [then_e]))
        else_v phi_ty ∧
      (smartCasts ctx (beginScope st1) cond).1 =
        (specConjunctCasts ctx cond).map (fun vt =>
          Expr.store { mutable := false, type_ := vt.2, name := vt.1.name }
            (Expr.cast (Expr.varGet vt.1) vt.2) true) ∧
      (∀ vt, vt ∈ specConjunctCasts ctx cond →
        ∃ v, findVar ctx (smartCasts ctx (beginScope st1) cond).2
            (Token.generic_identifier vt.1.name) = some v ∧ v.mutable = false) := by
  unfold ifLower at h
  cases hc : lower st condition with
  | error err => rw [hc] at h; exact absurd h (by simp [res_bind_error])
  | ok p =>
    obtain ⟨cond, st1⟩ := p
    rw [hc, res_bind_ok] at h
    dsimp only at h
    by_cases hb : cond.getType ctx = GType.bool
    · rw [if_neg (fun hcon => hcon hb)] at h
      obtain ⟨tb, st3, hsc⟩ : ∃ a b, smartCasts ctx (beginScope st1) cond = (a, b) :=
        ⟨_, _, rfl⟩
      rw [hsc] at h
      dsimp only at h
      cases ht : lower st3 then_branch with
      | error err => rw [ht] at h; exact absurd h (by simp [res_bind_error])
      | ok q =>
        obtain ⟨then_e, st4⟩ := q
        rw [ht, res_bind_ok] at h
        dsimp only at h
        have hbind : ∀ vt, vt ∈ specConjunctCasts ctx cond →
            ∃ v, findVar ctx st3 (Token.generic_identifier vt.1.name) = some v ∧
              v.mutable = false := by
          intro vt hmem
          have := (c10_smart_cast_not_assignable ctx).2.1 (beginScope st1) cond vt
            [] st1.environments rfl hmem
          rwa [hsc] at this
        have hmap : tb = (specConjunctCasts ctx cond).map (fun vt =>
            Expr.store { mutable := false, type_ := vt.2, name := vt.1.name }
              (Expr.cast (Expr.varGet vt.1) vt.2) true) := by
          have := findCasts_spec ctx cond (beginScope st1) []
          unfold smartCasts at hsc
          rw [hsc] at this
          simpa using this
        cases else_branch with
        | none =>
          rw [res_bind_ok] at h
          dsimp only at h
          simp only [Except.ok.injEq, Prod.mk.injEq] at h
          obtain ⟨he, _⟩ := h
          refine ⟨cond, st1, then_e, st4, ?ev, ?pt, rfl, ?h1, ?h2, ?h3, ?h4⟩
          case h1 => rw [hsc]; exact ht
          case h2 => rw [hsc]; exact he.symm
          case h3 => rw [hsc]; exact hmap
          case h4 =>
            intro vt hmem
            rw [hsc]
            exact hbind vt hmem
        | some eb =>
          dsimp only at h
          cases he2 : lower (endScope st4) eb with
          | error err => rw [he2] at h; exact absurd h (by simp [res_bind_error])
          | ok r =>
            obtain ⟨else_v, st6⟩ := r
            rw [he2, res_bind_ok] at h
            dsimp only at h
            simp only [Except.ok.injEq, Prod.mk.injEq] at h
            obtain ⟨he, _⟩ := h
            refine ⟨cond, st1, then_e, st4, ?ev2, ?pt2, rfl, ?g1, ?g2, ?g3, ?g4⟩
            case g1 => rw [hsc]; exact ht
            case g2 => rw [hsc]; exact he.symm
            case g3 => rw [hsc]; exact hmap
            case g4 =>
              intro vt hmem
              rw [hsc]
              exact hbind vt hmem
    · rw [if_pos hb] at h
      simp at h

/-- Witness for C4: lowering `if x is C then x` in the witness context
produces exactly one smart cast store, binding an immutable x of type
C initialized with the old i64 x cast to C. -/
theorem c4_smart_casts_witness :
    (smartCasts ctxW (beginScope st0)
        (Expr.binary (Expr.varGet { mutable := true, type_ := GType.i64, name := "x" })
          TType.is_ (Expr.typeGet (GType.class_ 0)))).1 =
      [Expr.store { mutable := false, type_ := GType.class_ 0, name := "x" }
        (Expr.cast (Expr.varGet { mutable := true, type_ := GType.i64, name := "x" })
          (GType.class_ 0)) true] := by
  obtain ⟨cond, st1, then_e, st4, else_v, phi_ty, hc, hthen, he, hmap, hbind⟩ :=
    c4_smart_casts (expression ctxW 2) ctxW st0
      (AST.binary (AST.var (Token.generic_identifier "x"))
        { t_type := TType.is_, lexeme := "is" }
        (AST.var (Token.generic_identifier "C")))
      (AST.var (Token.generic_identifier "x")) Option.none _ _ rfl
  have hcv : expression ctxW 2 st0
      (AST.binary (AST.var (Token.generic_identifier "x"))
        { t_type := TType.is_, lexeme := "is" }
        (AST.var (Token.generic_identifier "C"))) =
      Except.ok (Expr.binary
        (Expr.varGet { mutable := true, type_ := GType.i64, name := "x" })
        TType.is_ (Expr.typeGet (GType.class_ 0)), st0) := rfl
  have h2 := hc.symm.trans hcv
  simp only [Except.ok.injEq, Prod.mk.injEq] at h2
  obtain ⟨hce, hst⟩ := h2
  subst hce
  subst hst
  rw [hmap]
  rfl

/-- C5: while uninitialized_this_members is non-empty, any method call
on a Get callee is rejected; a constructor body that lowers
successfully always ends with an empty set, and one that leaves a
member uninitialized makes constructor lowering fail. -/
theorem c5_constructor_initialization :
    (∀ (lower : Lower) (ctx : Ctx) (st : GenState) (object : AST) (mname : Token)
        (arguments : List AST),
      st.uninitialized_this_members ≠ [] →
      tryMethodCall lower ctx st (AST.get object mname) arguments =
        Except.error GErr.methodsInConstructor) ∧
    (∀ (ctx : Ctx) (fuel : Nat) (st : GenState) (fn_params : List Variable)
        (ctor : CtorInfo) (class_mems : List ClassMember) (body : Expr)
        (st_out : GenState),
      generateConstructor ctx fuel st fn_params ctor class_mems =
        Except.ok (body, st_out) →
      st_out.uninitialized_this_members = []) ∧
    (∀ (ctx : Ctx) (fuel : Nat) (st : GenState) (fn_params : List Variable)
        (ctor : CtorInfo) (class_mems : List ClassMember) (st1 : GenState)
        (body : Expr) (st3 : GenState),
      prepareFunction st fn_params = Except.ok st1 →
      expression ctx fuel (setUninitializedMembers st1 ctor class_mems) ctor.body =
        Except.ok (body, st3) →
      (endScope st3).uninitialized_this_members ≠ [] →
      generateConstructor ctx fuel st fn_params ctor class_mems =
        Except.error GErr.uninitAfterConstructor) := by
  refine ⟨?_, ?_, ?_⟩
  · intro lower ctx st object mname arguments hne
    unfold tryMethodCall
    dsimp only
    rw [if_pos hne]
  · intro ctx fuel st fn_params ctor class_mems body st_out h
    unfold generateConstructor at h
    cases hp : prepareFunction st fn_params with
    | error err => rw [hp] at h; exact absurd h (by simp [res_bind_error])
    | ok st1 =>
      rw [hp, res_bind_ok] at h
      dsimp only at h
      cases he : expression ctx fuel (setUninitializedMembers st1 ctor class_mems)
          ctor.body with
      | error err => rw [he] at h; exact absurd h (by simp [res_bind_error])
      | ok q =>
        obtain ⟨b, st3⟩ := q
        rw [he, res_bind_ok] at h
        dsimp only at h
        unfold checkNoUninitialized at h
        by_cases hz : (endScope st3).uninitialized_this_members = []
        · rw [if_pos hz] at h
          simp only [Except.ok.injEq, Prod.mk.injEq] at h
          obtain ⟨_, hst⟩ := h
          rw [← hst]
          exact hz
        · rw [if_neg hz] at h
          cases h
  · intro ctx fuel st fn_params ctor class_mems st1 body st3 hp he hne
    unfold generateConstructor
    rw [hp, res_bind_ok]
    dsimp only
    rw [he, res_bind_ok]
    dsimp only
    unfold checkNoUninitialized
    rw [if_neg hne]

/-- Witness for C5: in a constructor of the witness class C with field
f uninitialized, calling a method on a Get callee is rejected; and a
constructor whose body sets f lowers with an empty set afterwards. -/
theorem c5_constructor_initialization_witness :
    (stC.uninitialized_this_members ≠ [] ∧
     tryMethodCall (expression ctxW 1) ctxW stC
        (AST.get (AST.var (Token.generic_identifier "o")) (Token.generic_identifier "m"))
        [] = Except.error GErr.methodsInConstructor) ∧
    (∃ body st_out,
      generateConstructor ctxW 3 st0
        [{ mutable := false, type_ := GType.class_ 0, name := "this" }]
        { parameters := [], body := AST.set (AST.var (Token.generic_identifier "o"))
            (Token.generic_identifier "f") (AST.var (Token.generic_identifier "y")) }
        [memF] = Except.ok (body, st_out) ∧
      st_out.uninitialized_this_members = []) := by
  constructor
  · refine ⟨by decide, ?_⟩
    exact (c5_constructor_initialization).1 (expression ctxW 1) ctxW stC
      (AST.var (Token.generic_identifier "o")) (Token.generic_identifier "m") []
      (by decide)
  · refine ⟨_, _, rfl, ?_⟩
    exact (c5_constructor_initialization).2.1 ctxW 3 st0
      [{ mutable := false, type_ := GType.class_ 0, name := "this" }]
      { parameters := [], body := AST.set (AST.var (Token.generic_identifier "o"))
          (Token.generic_identifier "f") (AST.var (Token.generic_identifier "y")) }
      [memF] _ _ rfl

/-- check_call_arg_type accepts exactly an argument of the parameter
type (unchanged) or one whose type has a registered implementation of
the parameter type (cast to it). -/
lemma checkCallArgType_spec (ctx : Ctx) (a : Expr) (ty : GType) (r : Expr) :
    checkCallArgType ctx a ty = some r ↔
    ((a.getType ctx = ty ∧ r = a) ∨
     (a.getType ctx ≠ ty ∧ r = Expr.cast a ty ∧
       ∃ impls, alookup (a.getType ctx) ctx.iface_impls = some impls ∧
         (alookup ty impls.interfaces).isSome)) := by
  unfold checkCallArgType
  dsimp only
  by_cases h : a.getType ctx = ty
  · rw [if_pos h]
    constructor
    · intro hs
      refine Or.inl ⟨h, ?_⟩
      injection hs
      simp_all
    · intro hor
      rcases hor with ⟨_, hr⟩ | ⟨hne, _⟩
      · rw [hr]
      · exact absurd h hne
  · rw [if_neg h]
    cases hl : alookup (a.getType ctx) ctx.iface_impls with
    | none =>
      dsimp only
      constructor
      · intro hs; cases hs
      · intro hor
        rcases hor with ⟨heq, _⟩ | ⟨_, _, impls, himp, _⟩
        · exact absurd heq h
        · cases himp
    | some impls =>
      dsimp only
      by_cases hi : (alookup ty impls.interfaces).isSome
      · rw [if_pos hi]
        constructor
        · intro hs
          refine Or.inr ⟨h, ?_, impls, rfl, hi⟩
          injection hs
          simp_all
        · intro hor
          rcases hor with ⟨heq, _⟩ | ⟨_, hr, _⟩
          · exact absurd heq h
          · rw [hr]
      · rw [if_neg hi]
        constructor
        · intro hs; cases hs
        · intro hor
          rcases hor with ⟨heq, _⟩ | ⟨_, _, impls2, himp2, hi2⟩
          · exact absurd heq h
          · injection himp2 with himp2
            rw [← himp2] at hi2
            exact absurd hi2 hi

/-- A successful lowerList run is a sequential lowering of the
arguments. -/
lemma lowerList_lowers (lower : Lower) :
    ∀ (args : List AST) (st : GenState) (es : List Expr) (st_out : GenState),
    lowerList lower st args = Except.ok (es, st_out) → Lowers lower st args es st_out := by
  intro args
  induction args with
  | nil =>
    intro st es st_out h
    unfold lowerList at h
    simp only [Except.ok.injEq, Prod.mk.injEq] at h
    obtain ⟨hes, hst⟩ := h
    rw [← hes, ← hst]
    exact Lowers.nil st
  | cons a rest ih =>
    intro st es st_out h
    unfold lowerList at h
    cases hl : lower st a with
    | error err => rw [hl] at h; exact absurd h (by simp [res_bind_error])
    | ok p =>
      obtain ⟨e, st1⟩ := p
      rw [hl, res_bind_ok] at h
      dsimp only at h
      cases hr : lowerList lower st1 rest with
      | error err => rw [hr] at h; exact absurd h (by simp [res_bind_error])
      | ok q =>
        obtain ⟨es2, st2⟩ := q
        rw [hr, res_bind_ok] at h
        dsimp only at h
        simp only [Except.ok.injEq, Prod.mk.injEq] at h
        obtain ⟨hes, hst⟩ := h
        rw [← hes, ← hst]
        exact Lowers.cons st a e st1 rest es2 st2 hl (ih st1 es2 st2 hr)

/-- A successful zip loop lowers the arguments against the parameters,
producing the checked expressions pointwise. -/
lemma lowerZip_spec (lower : Lower) (ctx : Ctx) :
    ∀ (args : List AST) (params : List GType) (st : GenState) (res : List Expr)
      (st_out : GenState),
    lowerZip lower ctx st args params = Except.ok (res, st_out) →
    ∃ es, Lowers lower st (args.take params.length) es st_out ∧
      es.length = min args.length params.length ∧
      List.Forall₂ (fun ep r => checkCallArgType ctx ep.1 ep.2 = some r)
        (es.zip params) res := by
  intro args
  induction args with
  | nil =>
    intro params st res st_out h
    cases params with
    | nil =>
      unfold lowerZip at h
      simp only [Except.ok.injEq, Prod.mk.injEq] at h
      obtain ⟨hes, hst⟩ := h
      exact ⟨[], by rw [← hst]; exact Lowers.nil st, by simp, by rw [← hes]; constructor⟩
    | cons p ps =>
      unfold lowerZip at h
      simp only [Except.ok.injEq, Prod.mk.injEq] at h
      obtain ⟨hes, hst⟩ := h
      exact ⟨[], by rw [← hst]; exact Lowers.nil st, by simp, by rw [← hes]; constructor⟩
  | cons a rest ih =>
    intro params st res st_out h
    cases params with
    | nil =>
      unfold lowerZip at h
      simp only [Except.ok.injEq, Prod.mk.injEq] at h
      obtain ⟨hes, hst⟩ := h
      exact ⟨[], by rw [← hst]; exact Lowers.nil st, by simp, by rw [← hes]; constructor⟩
    | cons p ps =>
      unfold lowerZip at h
      cases hl : lower st a with
      | error err => rw [hl] at h; exact absurd h (by simp [res_bind_error])
      | ok q =>
        obtain ⟨arg, st1⟩ := q
        rw [hl, res_bind_ok] at h
        dsimp only at h
        cases hc : checkCallArgType ctx arg p with
        | none => rw [hc] at h; cases h
        | some arg2 =>
          simp only [hc] at h
          cases hz : lowerZip lower ctx st1 rest ps with
          | error err => rw [hz] at h; exact absurd h (by simp [res_bind_error])
          | ok q2 =>
            obtain ⟨res2, st2⟩ := q2
            rw [hz, res_bind_ok] at h
            dsimp only at h
            simp only [Except.ok.injEq, Prod.mk.injEq] at h
            obtain ⟨hes, hst⟩ := h
            obtain ⟨es2, hlow2, hlen2, hfa2⟩ := ih ps st1 res2 st2 hz
            refine ⟨arg :: es2, ?_, ?_, ?_⟩
            · rw [← hst]
              exact Lowers.cons st a arg st1 _ es2 st2 hl hlow2
            · simp [hlen2, Nat.succ_min_succ]
            · rw [← hes]
              simp only [List.zip_cons_cons]
              exact List.Forall₂.cons hc hfa2

/-- The zip loop never reports an arity error of its own. -/
lemma lowerZip_no_arity (lower : Lower) (ctx : Ctx)
    (hl : ∀ st a n g, lower st a ≠ Except.error (GErr.arity n g)) :
    ∀ (args : List AST) (params : List GType) (st : GenState) (n g : Nat),
    lowerZip lower ctx st args params ≠ Except.error (GErr.arity n g) := by
  intro args
  induction args with
  | nil =>
    intro params st n g h
    cases params with
    | nil => cases h
    | cons p ps => cases h
  | cons a rest ih =>
    intro params st n g h
    cases params with
    | nil => cases h
    | cons p ps =>
      unfold lowerZip at h
      cases hlo : lower st a with
      | error err =>
        rw [hlo] at h
        rw [res_bind_error] at h
        injection h with h2
        rw [h2] at hlo
        exact hl st a n g hlo
      | ok q =>
        obtain ⟨arg, st1⟩ := q
        rw [hlo, res_bind_ok] at h
        dsimp only at h
        cases hc : checkCallArgType ctx arg p with
        | none => rw [hc] at h; cases h
        | some arg2 =>
          simp only [hc] at h
          cases hz : lowerZip lower ctx st1 rest ps with
          | error err =>
            rw [hz] at h
            rw [res_bind_error] at h
            injection h with h2
            rw [h2] at hz
            exact ih ps st1 n g hz
          | ok q2 =>
            rw [hz, res_bind_ok] at h
            cases h

/-- Sequential lowering never reports an arity error of its own. -/
lemma lowerList_no_arity (lower : Lower)
    (hl : ∀ st a n g, lower st a ≠ Except.error (GErr.arity n g)) :
    ∀ (args : List AST) (st : GenState) (n g : Nat),
    lowerList lower st args ≠ Except.error (GErr.arity n g) := by
  intro args
  induction args with
  | nil => intro st n g h; cases h
  | cons a rest ih =>
    intro st n g h
    unfold lowerList at h
    cases hlo : lower st a with
    | error err =>
      rw [hlo] at h
      rw [res_bind_error] at h
      injection h with h2
      rw [h2] at hlo
      exact hl st a n g hlo
    | ok q =>
      obtain ⟨e, st1⟩ := q
      rw [hlo, res_bind_ok] at h
      dsimp only at h
      cases hr : lowerList lower st1 rest with
      | error err =>
        rw [hr] at h
        rw [res_bind_error] at h
        injection h with h2
        rw [h2] at hr
        exact ih st1 n g hr
      | ok q2 =>
        rw [hr, res_bind_ok] at h
        cases h

/-- Sequential lowerings compose over list append. -/
lemma Lowers.append (lower : Lower) :
    ∀ {st : GenState} {l1 : List AST} {es1 : List Expr} {st1 : GenState}
      {l2 : List AST} {es2 : List Expr} {st2 : GenState},
    Lowers lower st l1 es1 st1 → Lowers lower st1 l2 es2 st2 →
    Lowers lower st (l1 ++ l2) (es1 ++ es2) st2 := by
  intro st l1 es1 st1 l2 es2 st2 h1 h2
  induction h1 with
  | nil => simpa using h2
  | cons st a e stm rest es stn hl hrest ih =>
    exact Lowers.cons st a e stm _ _ st2 hl (ih h2)

/-- Zipping an append against a list of the left part's length ignores
the right part. -/
lemma zip_append_left {α β : Type} :
    ∀ (l1 : List α) (p : List β) (l2 : List α),
    l1.length = p.length → (l1 ++ l2).zip p = l1.zip p := by
  intro l1
  induction l1 with
  | nil =>
    intro p l2 h
    cases p with
    | nil => simp
    | cons b ps => cases h
  | cons a l ih =>
    intro p l2 h
    cases p with
    | nil => cases h
    | cons b ps =>
      simp only [List.cons_append, List.zip_cons_cons, List.cons.injEq]
      exact ⟨trivial, ih ps l2 (by simpa using h)⟩

/-- generate_func_args without a receiver, with the length bookkeeping
normalized: the arity gate first, then the checked zip and the
unchecked surplus. -/
lemma generateFuncArgs_none_eq (lower : Lower) (ctx : Ctx) (st : GenState)
    (params : List GType) (args : List AST) (variadic : Bool) :
    generateFuncArgs lower ctx st params args Option.none variadic =
    if params.length > args.length ∨ (params.length < args.length ∧ variadic = false) then
      Except.error (GErr.arity params.length args.length)
    else
      (do
        let (zipped, st1) ← lowerZip lower ctx st args params
        let (rest, st2) ← lowerList lower st1 (args.drop zipped.length)
        Except.ok (zipped ++ rest, st2)) := by
  unfold generateFuncArgs
  simp

/-- tryMethodCall falls through on every callee that is not a Get. -/
lemma tryMethodCall_not_get (lower : Lower) (ctx : Ctx) (st : GenState)
    (callee : AST) (arguments : List AST) (h : ∀ o n, callee ≠ AST.get o n) :
    tryMethodCall lower ctx st callee arguments = Except.ok (Option.none, st) := by
  cases callee with
  | get o n => exact absurd rfl (h o n)
  | assignment a b => rfl
  | binary a o b => rfl
  | block es => rfl
  | call c args => rfl
  | ifE c t e => rfl
  | literal l => rfl
  | set o n v => rfl
  | var t => rfl
  | varDef n m i => rfl

/-- tryConstructorCall falls through on a callee of function type
(function types carry no constructors). -/
lemma tryConstructorCall_function (lower : Lower) (ctx : Ctx) (st : GenState)
    (callee : Expr) (args : List AST) (fid : Nat)
    (hty : callee.getType ctx = GType.function fid) :
    tryConstructorCall lower ctx st callee args = Except.ok (Option.none, st) := by
  unfold tryConstructorCall
  rw [hty]
  rfl

/-- tryConstructorCall falls through on a callee of closure type. -/
lemma tryConstructorCall_closure (lower : Lower) (ctx : Ctx) (st : GenState)
    (callee : Expr) (args : List AST) (cid : Nat)
    (hty : callee.getType ctx = GType.closure cid) :
    tryConstructorCall lower ctx st callee args = Except.ok (Option.none, st) := by
  unfold tryConstructorCall
  rw [hty]
  rfl

/-- C3: for a call of a function- or closure-typed callee with n
declared parameters, an arity error arises exactly for fewer arguments
than n, or more than n on a non-variadic callee; each of the first n
arguments is accepted exactly at the parameter's type or via a cast to
an interface type implemented for it; any surplus variadic arguments
are lowered and passed unchecked. -/
theorem c3_call_arguments :
    (∀ (lower : Lower) (ctx : Ctx) (st : GenState) (parameters : List GType)
        (arguments : List AST) (variadic : Bool),
      (∀ st2 a n g, lower st2 a ≠ Except.error (GErr.arity n g)) →
      ((∃ n g, generateFuncArgs lower ctx st parameters arguments Option.none variadic =
          Except.error (GErr.arity n g)) ↔
        (arguments.length < parameters.length ∨
         (parameters.length < arguments.length ∧ variadic = false)))) ∧
    (∀ (lower : Lower) (ctx : Ctx) (st : GenState) (parameters : List GType)
        (arguments : List AST) (variadic : Bool) (res : List Expr) (st_out : GenState),
      generateFuncArgs lower ctx st parameters arguments Option.none variadic =
        Except.ok (res, st_out) →
      parameters.length ≤ arguments.length ∧
      ∃ es checked, Lowers lower st arguments es st_out ∧
        res = checked ++ es.drop parameters.length ∧
        List.Forall₂ (fun ep r => checkCallArgType ctx ep.1 ep.2 = some r)
          (es.zip parameters) checked) ∧
    (∀ (ctx : Ctx) (a : Expr) (ty : GType) (r : Expr),
      checkCallArgType ctx a ty = some r ↔
      ((a.getType ctx = ty ∧ r = a) ∨
       (a.getType ctx ≠ ty ∧ r = Expr.cast a ty ∧
         ∃ impls, alookup (a.getType ctx) ctx.iface_impls = some impls ∧
           (alookup ty impls.interfaces).isSome))) ∧
    (∀ (lower : Lower) (ctx : Ctx) (st : GenState) (callee : AST)
        (arguments : List AST) (callee_mir : Expr) (st2 : GenState) (fid : Nat),
      (∀ o n, callee ≠ AST.get o n) →
      lower st callee = Except.ok (callee_mir, st2) →
      callee_mir.getType ctx = GType.function fid →
      callLower lower ctx st callee arguments =
        Except.map (fun r => (Expr.call callee_mir r.1, r.2))
          (generateFuncArgs lower ctx st2
            ((ctx.funcs fid).parameters.map (fun p => p.type_)) arguments Option.none
            (ctx.funcs fid).variadic)) ∧
    (∀ (lower : Lower) (ctx : Ctx) (st : GenState) (callee : AST)
        (arguments : List AST) (callee_mir : Expr) (st2 : GenState) (cid : Nat),
      (∀ o n, callee ≠ AST.get o n) →
      lower st callee = Except.ok (callee_mir, st2) →
      callee_mir.getType ctx = GType.closure cid →
      callLower lower ctx st callee arguments =
        Except.map (fun r => (Expr.call callee_mir r.1, r.2))
          (generateFuncArgs lower ctx st2 (ctx.closures cid).parameters arguments
            Option.none false)) := by
  refine ⟨?_, ?_, fun ctx a ty r => checkCallArgType_spec ctx a ty r, ?_, ?_⟩
  · intro lower ctx st parameters arguments variadic hl
    rw [generateFuncArgs_none_eq]
    by_cases hcond : parameters.length > arguments.length ∨
        (parameters.length < arguments.length ∧ variadic = false)
    · rw [if_pos hcond]
      constructor
      · intro _
        rcases hcond with hlt | ⟨hgt, hv⟩
        · exact Or.inl hlt
        · exact Or.inr ⟨hgt, hv⟩
      · intro _
        exact ⟨parameters.length, arguments.length, rfl⟩
    · rw [if_neg hcond]
      constructor
      · intro hex
        obtain ⟨n, g, herr⟩ := hex
        exfalso
        cases hz : lowerZip lower ctx st arguments parameters with
        | error err =>
          rw [hz, res_bind_error] at herr
          injection herr with h2
          rw [h2] at hz
          exact lowerZip_no_arity lower ctx hl arguments parameters st n g hz
        | ok q =>
          obtain ⟨zipped, st1⟩ := q
          rw [hz, res_bind_ok] at herr
          dsimp only at herr
          cases hr : lowerList lower st1 (arguments.drop zipped.length) with
          | error err =>
            rw [hr, res_bind_error] at herr
            injection herr with h2
            rw [h2] at hr
            exact lowerList_no_arity lower hl _ st1 n g hr
          | ok q2 =>
            obtain ⟨rest, st2⟩ := q2
            rw [hr, res_bind_ok] at herr
            cases herr
      · intro hc
        exfalso
        rcases hc with hlt | ⟨hgt, hv⟩
        · exact hcond (Or.inl hlt)
        · exact hcond (Or.inr ⟨hgt, hv⟩)
  · intro lower ctx st parameters arguments variadic res st_out h
    rw [generateFuncArgs_none_eq] at h
    by_cases hcond : parameters.length > arguments.length ∨
        (parameters.length < arguments.length ∧ variadic = false)
    · rw [if_pos hcond] at h
      cases h
    · rw [if_neg hcond] at h
      have hle : parameters.length ≤ arguments.length := by
        by_contra hnle
        exact hcond (Or.inl (Nat.lt_of_not_le hnle))
      refine ⟨hle, ?_⟩
      cases hz : lowerZip lower ctx st arguments parameters with
      | error err => rw [hz] at h; exact absurd h (by simp [res_bind_error])
      | ok q =>
        obtain ⟨zipped, st1⟩ := q
        rw [hz, res_bind_ok] at h
        dsimp only at h
        cases hr : lowerList lower st1 (arguments.drop zipped.length) with
        | error err => rw [hr] at h; exact absurd h (by simp [res_bind_error])
        | ok q2 =>
          obtain ⟨rest, st2⟩ := q2
          rw [hr, res_bind_ok] at h
          dsimp only at h
          simp only [Except.ok.injEq, Prod.mk.injEq] at h
          obtain ⟨hres, hst⟩ := h
          subst hst
          obtain ⟨es1, hlow1, hlen1, hfa1⟩ :=
            lowerZip_spec lower ctx arguments parameters st zipped st1 hz
          have hlen1n : es1.length = parameters.length :=
            hlen1.trans (Nat.min_eq_right hle)
          have hzlen : zipped.length = parameters.length := by
            have := List.Forall₂.length_eq hfa1
            rw [← this]
            rw [List.length_zip, hlen1n]
            simp
          have hlow2 := lowerList_lowers lower _ _ _ _ hr
          rw [hzlen] at hlow2
          refine ⟨es1 ++ rest, zipped, ?_, ?_, ?_⟩
          · have := Lowers.append lower hlow1 hlow2
            rwa [List.take_append_drop] at this
          · rw [← hres]
            congr 1
            rw [← hlen1n, List.drop_left]
          · rw [zip_append_left es1 parameters rest hlen1n]
            exact hfa1
  · intro lower ctx st callee arguments callee_mir st2 fid hng hlow hty
    unfold callLower
    rw [tryMethodCall_not_get lower ctx st callee arguments hng, res_bind_ok]
    dsimp only
    rw [hlow, res_bind_ok]
    dsimp only
    rw [tryConstructorCall_function lower ctx st2 callee_mir arguments fid hty,
      res_bind_ok]
    dsimp only
    rw [hty]
    dsimp only
    cases hg : generateFuncArgs lower ctx st2
        ((ctx.funcs fid).parameters.map (fun p => p.type_)) arguments Option.none
        (ctx.funcs fid).variadic with
    | error err => rfl
    | ok r =>
      obtain ⟨args2, st4⟩ := r
      rfl
  · intro lower ctx st callee arguments callee_mir st2 cid hng hlow hty
    unfold callLower
    rw [tryMethodCall_not_get lower ctx st callee arguments hng, res_bind_ok]
    dsimp only
    rw [hlow, res_bind_ok]
    dsimp only
    rw [tryConstructorCall_closure lower ctx st2 callee_mir arguments cid hty,
      res_bind_ok]
    dsimp only
    rw [hty]
    dsimp only
    cases hg : generateFuncArgs lower ctx st2 (ctx.closures cid).parameters arguments
        Option.none false with
    | error err => rfl
    | ok r =>
      obtain ⟨args2, st4⟩ := r
      rfl

/-- Witness for C3: a call with too few arguments reports the arity
error; a variadic call with one declared parameter and two arguments
lowers with the surplus passed as-is; and a call of the variadic
global f dispatches through generate_func_args with its signature. -/
theorem c3_call_arguments_witness :
    (∀ st2 a n g, lowerLit st2 a ≠ Except.error (GErr.arity n g)) ∧
    (∃ n g, generateFuncArgs lowerLit ctx0 st0 [GType.i64] [] Option.none false =
      Except.error (GErr.arity n g)) ∧
    (generateFuncArgs lowerLit ctxW st0 [GType.i64]
        [AST.literal (Lit.i64 1), AST.literal (Lit.i64 2)] Option.none true =
      Except.ok ([Expr.literal (Lit.i64 1), Expr.literal (Lit.i64 2)], st0)) ∧
    (∃ es checked, Lowers lowerLit st0
        [AST.literal (Lit.i64 1), AST.literal (Lit.i64 2)] es st0 ∧
      [Expr.literal (Lit.i64 1), Expr.literal (Lit.i64 2)] =
        checked ++ es.drop 1 ∧
      List.Forall₂ (fun ep r => checkCallArgType ctxW ep.1 ep.2 = some r)
        (es.zip [GType.i64]) checked) ∧
    (callLower (expression ctxW 1) ctxW st0 (AST.var (Token.generic_identifier "f"))
        [] =
      Except.map (fun r =>
          (Expr.call (Expr.varGet (Variable.mk false (GType.function 3) "f")) r.1, r.2))
        (generateFuncArgs (expression ctxW 1) ctxW st0
          ((ctxW.funcs 3).parameters.map (fun p => p.type_)) [] Option.none
          (ctxW.funcs 3).variadic)) := by
  have hl : ∀ st2 a n g, lowerLit st2 a ≠ Except.error (GErr.arity n g) := by
    intro st2 a n g h
    cases a <;> simp [lowerLit] at h
  refine ⟨hl, ?_, rfl, ?_, ?_⟩
  · exact (c3_call_arguments.1 lowerLit ctx0 st0 [GType.i64] [] false hl).mpr
      (Or.inl (by decide))
  · exact (c3_call_arguments.2.1 lowerLit ctxW st0 [GType.i64]
      [AST.literal (Lit.i64 1), AST.literal (Lit.i64 2)] true
      [Expr.literal (Lit.i64 1), Expr.literal (Lit.i64 2)] st0 rfl).2
  · exact c3_call_arguments.2.2.2.1 (expression ctxW 1) ctxW st0
      (AST.var (Token.generic_identifier "f")) []
      (Expr.varGet (Variable.mk false (GType.function 3) "f")) st0 3
      (fun o n h => AST.noConfusion h) rfl rfl

/-- blocksNE over a list is elementwise. -/
lemma blocksNEList_all :
    ∀ (es : List Expr), Expr.blocksNEList es = true ↔ ∀ e ∈ es, e.blocksNE = true := by
  intro es
  induction es with
  | nil => simp [Expr.blocksNEList]
  | cons e rest ih =>
    simp only [Expr.blocksNEList, Bool.and_eq_true, ih, List.mem_cons]
    constructor
    · intro ⟨h1, h2⟩ x hx
      rcases hx with rfl | hx
      · exact h1
      · exact h2 x hx
    · intro h
      exact ⟨h e (Or.inl rfl), fun x hx => h x (Or.inr hx)⟩

/-- A sequential lowering by a block-preserving continuation produces
only block-sound expressions. -/
lemma Lowers_blocksNE (lower : Lower)
    (hB : ∀ st a e st1, lower st a = Except.ok (e, st1) → e.blocksNE = true) :
    ∀ {st args es st1}, Lowers lower st args es st1 → ∀ e ∈ es, e.blocksNE = true := by
  intro st args es st1 h
  induction h with
  | nil => intro e he; cases he
  | cons st a e stm rest es2 stn hl hrest ih =>
    intro x hx
    rcases List.mem_cons.mp hx with rfl | hx2
    · exact hB st a x stm hl
    · exact ih x hx2

/-- check_call_arg_type preserves block soundness. -/
lemma checkCallArgType_blocksNE (ctx : Ctx) (a : Expr) (ty : GType) (r : Expr)
    (h : checkCallArgType ctx a ty = some r) (ha : a.blocksNE = true) :
    r.blocksNE = true := by
  rcases (checkCallArgType_spec ctx a ty r).mp h with ⟨_, hr⟩ | ⟨_, hr, _⟩
  · rw [hr]; exact ha
  · rw [hr]
    simpa [Expr.blocksNE] using ha

/-- The zip loop produces only block-sound expressions. -/
lemma lowerZip_blocksNE (lower : Lower) (ctx : Ctx)
    (hB : ∀ st a e st1, lower st a = Except.ok (e, st1) → e.blocksNE = true) :
    ∀ args params st res st1,
    lowerZip lower ctx st args params = Except.ok (res, st1) →
    ∀ e ∈ res, e.blocksNE = true := by
  intro args params st res st1 h
  obtain ⟨es, hlow, _, hfa⟩ := lowerZip_spec lower ctx args params st res st1 h
  have hes := Lowers_blocksNE lower hB hlow
  intro e he
  obtain ⟨i, hi⟩ := List.get_of_mem he
  obtain ⟨hlen, hget⟩ := List.forall₂_iff_get.mp hfa
  have hchk := hget i.1 (by rw [hlen]; exact i.isLt) i.isLt
  have he2 : res.get ⟨i.1, i.isLt⟩ = e := hi
  rw [he2] at hchk
  have hfin : i.1 < (es.zip params).length := by rw [hlen]; exact i.isLt
  have hzi : ((es.zip params).get ⟨i.1, hfin⟩).1 ∈ es := by
    have hm := List.get_mem (es.zip params) i.1 hfin
    exact (List.of_mem_zip hm).1
  exact checkCallArgType_blocksNE ctx _ _ e hchk (hes _ hzi)

/-- lowerList produces only block-sound expressions. -/
lemma lowerList_blocksNE (lower : Lower)
    (hB : ∀ st a e st1, lower st a = Except.ok (e, st1) → e.blocksNE = true) :
    ∀ args st res st1, lowerList lower st args = Except.ok (res, st1) →
    ∀ e ∈ res, e.blocksNE = true := by
  intro args st res st1 h
  exact Lowers_blocksNE lower hB (lowerList_lowers lower args st res st1 h)

/-- alloc_type is block-sound when its arguments are. -/
lemma alloc_type_blocksNE (ty : GType) (c : Variable) (args : List Expr)
    (h : Expr.blocksNEList args = true) :
    (Expr.alloc_type ty c args).blocksNE = true := by
  cases ty <;> simpa [Expr.alloc_type, Expr.blocksNE] using h

/-- Every smart cast store is block-sound (it stores a cast of a plain
variable read). -/
lemma findCasts_blocksNE (ctx : Ctx) (st : GenState) (cond : Expr) :
    ∀ e ∈ (smartCasts ctx st cond).1, e.blocksNE = true := by
  intro e he
  unfold smartCasts at he
  rw [findCasts_spec ctx cond st []] at he
  simp only [List.nil_append, List.mem_map] at he
  obtain ⟨vt, _, heq⟩ := he
  rw [← heq]
  simp [Expr.blocksNE]

/-- generate_func_args produces only block-sound expressions. -/
lemma generateFuncArgs_blocksNE (lower : Lower) (ctx : Ctx)
    (hB : ∀ st a e st1, lower st a = Except.ok (e, st1) → e.blocksNE = true) :
    ∀ params args st first_arg variadic res st1,
    (∀ fa, first_arg = some fa → fa.blocksNE = true) →
    generateFuncArgs lower ctx st params args first_arg variadic =
      Except.ok (res, st1) →
    ∀ e ∈ res, e.blocksNE = true := by
  intro params args st first_arg variadic res st1 hfa h
  unfold generateFuncArgs at h
  dsimp only at h
  by_cases hcond : params.length > args.length + (if first_arg.isSome then 1 else 0) ∨
      (params.length < args.length + (if first_arg.isSome then 1 else 0) ∧
        variadic = false)
  · rw [if_pos hcond] at h
    cases h
  · rw [if_neg hcond] at h
    cases first_arg with
      | none =>
        dsimp only at h
        cases hz : lowerZip lower ctx st args params with
        | error err => rw [hz] at h; exact absurd h (by simp [res_bind_error])
        | ok q =>
          obtain ⟨zipped, stz⟩ := q
          rw [hz, res_bind_ok] at h
          dsimp only at h
          cases hr : lowerList lower stz (args.drop zipped.length) with
          | error err => rw [hr] at h; exact absurd h (by simp [res_bind_error])
          | ok q2 =>
            obtain ⟨rest, str⟩ := q2
            rw [hr, res_bind_ok] at h
            dsimp only at h
            simp only [Except.ok.injEq, Prod.mk.injEq] at h
            obtain ⟨hres, _⟩ := h
            intro e he
            rw [← hres] at he
            rcases List.mem_append.mp he with hm | hm
            · exact lowerZip_blocksNE lower ctx hB args params st zipped stz hz e hm
            · exact lowerList_blocksNE lower hB _ stz rest str hr e hm
      | some fa =>
        dsimp only at h
        cases params with
        | nil => cases h
        | cons p ps =>
          dsimp only at h
          cases hc : checkCallArgType ctx fa p with
          | none => rw [hc] at h; cases h
          | some fa2 =>
            rw [hc] at h
            dsimp only at h
            cases hz : lowerZip lower ctx st args ps with
            | error err => rw [hz] at h; exact absurd h (by simp [res_bind_error])
            | ok q =>
              obtain ⟨zipped, stz⟩ := q
              rw [hz, res_bind_ok] at h
              dsimp only at h
              cases hr : lowerList lower stz (args.drop (fa2 :: zipped).length) with
              | error err => rw [hr] at h; exact absurd h (by simp [res_bind_error])
              | ok q2 =>
                obtain ⟨rest, str⟩ := q2
                rw [hr, res_bind_ok] at h
                dsimp only at h
                simp only [Except.ok.injEq, Prod.mk.injEq] at h
                obtain ⟨hres, _⟩ := h
                intro e he
                rw [← hres] at he
                rcases List.mem_append.mp he with hm | hm
                · rcases List.mem_cons.mp hm with rfl | hm2
                  · exact checkCallArgType_blocksNE ctx fa p e hc (hfa fa rfl)
                  · exact lowerZip_blocksNE lower ctx hB args ps st zipped stz hz e hm2
                · exact lowerList_blocksNE lower hB _ stz rest str hr e hm

/-- A sequential lowering preserves the list length. -/
lemma Lowers_length (lower : Lower) :
    ∀ {st args es st1}, Lowers lower st args es st1 → es.length = args.length := by
  intro st args es st1 h
  induction h with
  | nil => rfl
  | cons st a e stm rest es2 stn hl hrest ih => simpa using ih

/-- get_field produces a block-sound object expression. -/
lemma getField_blocksNE (lower : Lower) (ctx : Ctx)
    (hB : ∀ st a e st1, lower st a = Except.ok (e, st1) → e.blocksNE = true) :
    ∀ st object name objE field st1,
    getField lower ctx st object name = Except.ok ((objE, field), st1) →
    objE.blocksNE = true := by
  intro st object name objE field st1 h
  unfold getField at h
  cases hl : lower st object with
  | error err => rw [hl] at h; exact absurd h (by simp [res_bind_error])
  | ok p =>
    obtain ⟨obj, stl⟩ := p
    rw [hl, res_bind_ok] at h
    dsimp only at h
    have hobj := hB st object obj stl hl
    cases hm : (match obj.getType ctx with
      | GType.class_ cid => (ctx.classes cid).members.find? (fun m => m.name = name.lexeme)
      | _ => Option.none : Option ClassMember) with
    | some f =>
      rw [hm] at h
      simp only [Except.ok.injEq, Prod.mk.injEq] at h
      obtain ⟨⟨ho, _⟩, _⟩ := h
      rw [← ho]
      exact hobj
    | none =>
      rw [hm] at h
      cases ha : findAssociatedMethod ctx (obj.getType ctx) name with
      | some m =>
        rw [ha] at h
        simp only [Except.ok.injEq, Prod.mk.injEq] at h
        obtain ⟨⟨ho, _⟩, _⟩ := h
        rw [← ho]
        exact hobj
      | none => rw [ha] at h; cases h

/-- binary_mir produces a block-sound expression from block-sound
operands. -/
lemma binaryMir_blocksNE (ctx : Ctx) (left : Expr) (operator : Token) (right : Expr)
    (e : Expr) (h : binaryMir ctx left operator right = Except.ok e)
    (hle : left.blocksNE = true) (hre : right.blocksNE = true) :
    e.blocksNE = true := by
  unfold binaryMir at h
  dsimp only at h
  by_cases hc : (left.getType ctx = right.getType ctx ∧
      (left.getType ctx).is_number = true) ∨
      (operator.t_type = TType.is_ ∧ (right.getType ctx).is_type = true)
  · rw [if_pos hc] at h
    injection h with h2
    rw [← h2]
    simp [Expr.blocksNE, Expr.blocksNEList, hle, hre]
  · rw [if_neg hc] at h
    cases hm : getOperatorOverloadingMethod ctx operator.t_type (left.getType ctx)
        (right.getType ctx) with
    | none => rw [hm] at h; cases h
    | some method =>
      rw [hm] at h
      dsimp only at h
      injection h with h2
      rw [← h2]
      by_cases hop : operator.t_type = TType.bangEqual
      · rw [if_pos hop]
        simp [Expr.blocksNE, Expr.blocksNEList, hle, hre]
      · rw [if_neg hop]
        simp [Expr.blocksNE, Expr.blocksNEList, hle, hre]

/-- try_constructor_call produces a block-sound expression. -/
lemma tryConstructorCall_blocksNE (lower : Lower) (ctx : Ctx)
    (hB : ∀ st a e st1, lower st a = Except.ok (e, st1) → e.blocksNE = true) :
    ∀ st callee args e st1,
    tryConstructorCall lower ctx st callee args = Except.ok (some e, st1) →
    e.blocksNE = true := by
  intro st callee args e st1 h
  unfold tryConstructorCall at h
  dsimp only at h
  cases hg : ctx.get_constructors (callee.getType ctx) with
  | none => rw [hg] at h; cases h
  | some constructors =>
    rw [hg] at h
    dsimp only at h
    cases hl : lowerList lower st args with
    | error err => rw [hl] at h; exact absurd h (by simp [res_bind_error])
    | ok p =>
      obtain ⟨argsE, stl⟩ := p
      rw [hl, res_bind_ok] at h
      dsimp only at h
      cases hf : constructors.find? (fun c => constructorMatches ctx c argsE) with
      | none => rw [hf] at h; cases h
      | some c =>
        rw [hf] at h
        simp only [Except.ok.injEq, Prod.mk.injEq, Option.some.injEq] at h
        obtain ⟨he, _⟩ := h
        rw [← he]
        refine alloc_type_blocksNE _ c argsE ?_
        rw [blocksNEList_all]
        exact lowerList_blocksNE lower hB args st argsE stl hl

/-- try_method_call produces a block-sound expression. -/
lemma tryMethodCall_blocksNE (lower : Lower) (ctx : Ctx)
    (hB : ∀ st a e st1, lower st a = Except.ok (e, st1) → e.blocksNE = true) :
    ∀ st callee arguments e st1,
    tryMethodCall lower ctx st callee arguments = Except.ok (some e, st1) →
    e.blocksNE = true := by
  intro st callee arguments e st1 h
  cases callee with
  | get object name =>
    unfold tryMethodCall at h
    dsimp only at h
    by_cases hu : st.uninitialized_this_members ≠ []
    · rw [if_pos hu] at h; cases h
    · rw [if_neg hu] at h
      cases hg : getField lower ctx st object name with
      | error err => rw [hg] at h; exact absurd h (by simp [res_bind_error])
      | ok p =>
        obtain ⟨⟨objE, field⟩, stg⟩ := p
        rw [hg, res_bind_ok] at h
        dsimp only at h
        have hobj := getField_blocksNE lower ctx hB st object name objE field stg hg
        cases field with
        | inl f => cases h
        | inr callable =>
          cases callable with
          | inl func =>
            dsimp only at h
            cases hga : generateFuncArgs lower ctx stg
                (match func.type_ with
                 | GType.function fid => (ctx.funcs fid).parameters.map (fun p => p.type_)
                 | _ => []) arguments (some objE) false with
            | error err => rw [hga] at h; exact absurd h (by simp [res_bind_error])
            | ok q =>
              obtain ⟨argsE, sta⟩ := q
              rw [hga, res_bind_ok] at h
              simp only [Except.ok.injEq, Prod.mk.injEq, Option.some.injEq] at h
              obtain ⟨he, _⟩ := h
              rw [← he]
              have hargs := generateFuncArgs_blocksNE lower ctx hB _ arguments stg
                (some objE) false argsE sta
                (fun fa hfa => by injection hfa with hfa; rw [← hfa]; exact hobj) hga
              simp only [Expr.blocksNE, Bool.and_eq_true]
              exact ⟨trivial, (blocksNEList_all argsE).mpr hargs⟩
          | inr index =>
            dsimp only at h
            cases hga : generateFuncArgs lower ctx stg
                (objE.getType ctx ::
                  (match (ctx.ifaces (match objE.getType ctx with
                    | GType.interface i => i
                    | _ => 0)).methods.get? index with
                   | some m => m.parameters
                   | Option.none => [])) arguments (some objE) false with
            | error err => rw [hga] at h; exact absurd h (by simp [res_bind_error])
            | ok q =>
              obtain ⟨argsE, sta⟩ := q
              rw [hga, res_bind_ok] at h
              simp only [Except.ok.injEq, Prod.mk.injEq, Option.some.injEq] at h
              obtain ⟨he, _⟩ := h
              rw [← he]
              have hargs := generateFuncArgs_blocksNE lower ctx hB _ arguments stg
                (some objE) false argsE sta
                (fun fa hfa => by injection hfa with hfa; rw [← hfa]; exact hobj) hga
              simp only [Expr.blocksNE]
              exact (blocksNEList_all argsE).mpr hargs
  | assignment a b => cases h
  | binary a o b => cases h
  | block es => cases h
  | call c args => cases h
  | ifE c t e2 => cases h
  | literal l => cases h
  | set o n v => cases h
  | var t => cases h
  | varDef n m i => cases h

/-- call lowering produces a block-sound expression. -/
lemma callLower_blocksNE (lower : Lower) (ctx : Ctx)
    (hB : ∀ st a e st1, lower st a = Except.ok (e, st1) → e.blocksNE = true) :
    ∀ st callee arguments e st1,
    callLower lower ctx st callee arguments = Except.ok (e, st1) →
    e.blocksNE = true := by
  intro st callee arguments e st1 h
  unfold callLower at h
  cases hm : tryMethodCall lower ctx st callee arguments with
  | error err => rw [hm] at h; exact absurd h (by simp [res_bind_error])
  | ok p =>
    obtain ⟨m, stm⟩ := p
    rw [hm, res_bind_ok] at h
    dsimp only at h
    cases m with
    | some e2 =>
      simp only [Except.ok.injEq, Prod.mk.injEq] at h
      obtain ⟨he, _⟩ := h
      rw [← he]
      exact tryMethodCall_blocksNE lower ctx hB st callee arguments e2 stm hm
    | none =>
      cases hl : lower stm callee with
      | error err => rw [hl] at h; exact absurd h (by simp [res_bind_error])
      | ok q =>
        obtain ⟨callee_mir, stl⟩ := q
        rw [hl, res_bind_ok] at h
        dsimp only at h
        have hcm := hB stm callee callee_mir stl hl
        cases hc : tryConstructorCall lower ctx stl callee_mir arguments with
        | error err => rw [hc] at h; exact absurd h (by simp [res_bind_error])
        | ok r =>
          obtain ⟨c, stc⟩ := r
          rw [hc, res_bind_ok] at h
          dsimp only at h
          cases c with
          | some e2 =>
            simp only [Except.ok.injEq, Prod.mk.injEq] at h
            obtain ⟨he, _⟩ := h
            rw [← he]
            exact tryConstructorCall_blocksNE lower ctx hB stl callee_mir arguments
              e2 stc hc
          | none =>
            cases hty : callee_mir.getType ctx with
            | function fid =>
              rw [hty] at h
              dsimp only at h
              cases hga : generateFuncArgs lower ctx stc
                  ((ctx.funcs fid).parameters.map (fun p => p.type_)) arguments
                  Option.none (ctx.funcs fid).variadic with
              | error err => rw [hga] at h; exact absurd h (by simp [res_bind_error])
              | ok q2 =>
                obtain ⟨argsE, sta⟩ := q2
                rw [hga, res_bind_ok] at h
                simp only [Except.ok.injEq, Prod.mk.injEq] at h
                obtain ⟨he, _⟩ := h
                rw [← he]
                have hargs := generateFuncArgs_blocksNE lower ctx hB _ arguments stc
                  Option.none (ctx.funcs fid).variadic argsE sta
                  (fun fa hfa => by cases hfa) hga
                simp only [Expr.blocksNE, Bool.and_eq_true]
                exact ⟨hcm, (blocksNEList_all argsE).mpr hargs⟩
            | closure cid =>
              rw [hty] at h
              dsimp only at h
              cases hga : generateFuncArgs lower ctx stc (ctx.closures cid).parameters
                  arguments Option.none false with
              | error err => rw [hga] at h; exact absurd h (by simp [res_bind_error])
              | ok q2 =>
                obtain ⟨argsE, sta⟩ := q2
                rw [hga, res_bind_ok] at h
                simp only [Except.ok.injEq, Prod.mk.injEq] at h
                obtain ⟨he, _⟩ := h
                rw [← he]
                have hargs := generateFuncArgs_blocksNE lower ctx hB _ arguments stc
                  Option.none false argsE sta (fun fa hfa => by cases hfa) hga
                simp only [Expr.blocksNE, Bool.and_eq_true]
                exact ⟨hcm, (blocksNEList_all argsE).mpr hargs⟩
            | none => rw [hty] at h; cases h
            | any => rw [hty] at h; cases h
            | bool => rw [hty] at h; cases h
            | i8 => rw [hty] at h; cases h
            | i16 => rw [hty] at h; cases h
            | i32 => rw [hty] at h; cases h
            | i64 => rw [hty] at h; cases h
            | u8 => rw [hty] at h; cases h
            | u16 => rw [hty] at h; cases h
            | u32 => rw [hty] at h; cases h
            | u64 => rw [hty] at h; cases h
            | f32 => rw [hty] at h; cases h
            | f64 => rw [hty] at h; cases h
            | class_ id => rw [hty] at h; cases h
            | interface id => rw [hty] at h; cases h
            | closureCaptured id => rw [hty] at h; cases h
            | typeval inner => rw [hty] at h; cases h

/-- if lowering produces a block-sound expression. -/
lemma ifLower_blocksNE (lower : Lower) (ctx : Ctx)
    (hB : ∀ st a e st1, lower st a = Except.ok (e, st1) → e.blocksNE = true) :
    ∀ st condition then_branch else_branch e st1,
    ifLower lower ctx st condition then_branch else_branch = Except.ok (e, st1) →
    e.blocksNE = true := by
  intro st condition then_branch else_branch e st1 h
  unfold ifLower at h
  cases hc : lower st condition with
  | error err => rw [hc] at h; exact absurd h (by simp [res_bind_error])
  | ok p =>
    obtain ⟨cond, stc⟩ := p
    rw [hc, res_bind_ok] at h
    dsimp only at h
    have hcond := hB st condition cond stc hc
    by_cases hb : cond.getType ctx = GType.bool
    · rw [if_neg (fun hcon => hcon hb)] at h
      obtain ⟨tb, st3, hsc⟩ : ∃ a b, smartCasts ctx (beginScope stc) cond = (a, b) :=
        ⟨_, _, rfl⟩
      rw [hsc] at h
      dsimp only at h
      cases ht : lower st3 then_branch with
      | error err => rw [ht] at h; exact absurd h (by simp [res_bind_error])
      | ok q =>
        obtain ⟨then_e, st4⟩ := q
        rw [ht, res_bind_ok] at h
        dsimp only at h
        have hthen := hB st3 then_branch then_e st4 ht
        have hcasts : ∀ x ∈ tb, x.blocksNE = true := by
          intro x hx
          have := findCasts_blocksNE ctx (beginScope stc) cond x
          rw [hsc] at this
          exact this hx
        have hblk : (!(tb ++ [then_e]).isEmpty) = true ∧
            Expr.blocksNEList (tb ++ [then_e]) = true := by
          constructor
          · simp
          · rw [blocksNEList_all]
            intro x hx
            rcases List.mem_append.mp hx with hm | hm
            · exact hcasts x hm
            · rw [List.mem_singleton.mp hm]
              exact hthen
        cases else_branch with
        | none =>
          rw [res_bind_ok] at h
          dsimp only at h
          simp only [Except.ok.injEq, Prod.mk.injEq] at h
          obtain ⟨he, _⟩ := h
          rw [← he]
          unfold Expr.if_cons
          simp only [Expr.blocksNE, Bool.and_eq_true]
          exact ⟨⟨hcond, hblk⟩, by simp [Expr.blocksNE]⟩
        | some eb =>
          dsimp only at h
          cases he2 : lower (endScope st4) eb with
          | error err => rw [he2] at h; exact absurd h (by simp [res_bind_error])
          | ok r =>
            obtain ⟨else_v, st6⟩ := r
            rw [he2, res_bind_ok] at h
            dsimp only at h
            simp only [Except.ok.injEq, Prod.mk.injEq] at h
            obtain ⟨he, _⟩ := h
            rw [← he]
            unfold Expr.if_cons
            simp only [Expr.blocksNE, Bool.and_eq_true]
            exact ⟨⟨hcond, hblk⟩, hB _ eb else_v st6 he2⟩
    · rw [if_pos hb] at h
      cases h

/-- block lowering produces a block-sound expression. -/
lemma blockLower_blocksNE (lower : Lower)
    (hB : ∀ st a e st1, lower st a = Except.ok (e, st1) → e.blocksNE = true) :
    ∀ st expressions e st1,
    blockLower lower st expressions = Except.ok (e, st1) → e.blocksNE = true := by
  intro st expressions e st1 h
  cases expressions with
  | nil =>
    unfold blockLower at h
    simp only [Except.ok.injEq, Prod.mk.injEq] at h
    obtain ⟨he, _⟩ := h
    rw [← he]
    rfl
  | cons a rest =>
    unfold blockLower at h
    dsimp only at h
    cases hl : lowerList lower (beginScope st) (a :: rest) with
    | error err => rw [hl] at h; exact absurd h (by simp [res_bind_error])
    | ok p =>
      obtain ⟨exprs, stl⟩ := p
      rw [hl, res_bind_ok] at h
      dsimp only at h
      simp only [Except.ok.injEq, Prod.mk.injEq] at h
      obtain ⟨he, _⟩ := h
      rw [← he]
      have hlen := Lowers_length lower (lowerList_lowers lower _ _ _ _ hl)
      simp only [Expr.blocksNE, Bool.and_eq_true]
      constructor
      · cases exprs with
        | nil => simp at hlen
        | cons x xs => simp
      · rw [blocksNEList_all]
        exact lowerList_blocksNE lower hB _ _ exprs stl hl

/-- MIRGenerator::expression produces only block-sound expressions. -/
lemma expression_blocksNE (ctx : Ctx) :
    ∀ (fuel : Nat) (st : GenState) (a : AST) (e : Expr) (st1 : GenState),
    expression ctx fuel st a = Except.ok (e, st1) → e.blocksNE = true := by
  intro fuel
  induction fuel with
  | zero => intro st a e st1 h; cases h
  | succ fuel ih =>
    intro st a e st1 h
    cases a with
    | assignment name value =>
      unfold expression at h
      dsimp only at h
      unfold assignmentLower at h
      cases hv : findVar ctx st name with
      | none => rw [hv] at h; cases h
      | some var =>
        rw [hv] at h
        dsimp only at h
        cases hl : expression ctx fuel st value with
        | error err => rw [hl] at h; exact absurd h (by simp [res_bind_error])
        | ok p =>
          obtain ⟨ve, stv⟩ := p
          rw [hl, res_bind_ok] at h
          dsimp only at h
          split at h
          · simp only [Except.ok.injEq, Prod.mk.injEq] at h
            obtain ⟨he, _⟩ := h
            rw [← he]
            simpa [Expr.blocksNE] using ih st value ve stv hl
          · split at h
            · cases h
            · cases h
    | binary l op r =>
      unfold expression at h
      dsimp only at h
      cases hl : expression ctx fuel st l with
      | error err => rw [hl] at h; exact absurd h (by simp [res_bind_error])
      | ok p =>
        obtain ⟨le, stl⟩ := p
        rw [hl, res_bind_ok] at h
        dsimp only at h
        cases hr : expression ctx fuel stl r with
        | error err => rw [hr] at h; exact absurd h (by simp [res_bind_error])
        | ok q =>
          obtain ⟨re, str⟩ := q
          rw [hr, res_bind_ok] at h
          dsimp only at h
          cases hb : binaryMir ctx le op re with
          | error err => rw [hb] at h; exact absurd h (by simp [res_bind_error])
          | ok be =>
            rw [hb, res_bind_ok] at h
            simp only [Except.ok.injEq, Prod.mk.injEq] at h
            obtain ⟨he, _⟩ := h
            rw [← he]
            exact binaryMir_blocksNE ctx le op re be hb
              (ih st l le stl hl) (ih stl r re str hr)
    | block es =>
      unfold expression at h
      dsimp only at h
      exact blockLower_blocksNE (expression ctx fuel) (fun s2 a2 e2 s3 => ih s2 a2 e2 s3)
        st es e st1 h
    | call c args =>
      unfold expression at h
      dsimp only at h
      exact callLower_blocksNE (expression ctx fuel) ctx
        (fun s2 a2 e2 s3 => ih s2 a2 e2 s3) st c args e st1 h
    | get o n =>
      unfold expression at h
      dsimp only at h
      unfold getLower at h
      cases hg : getField (expression ctx fuel) ctx st o n with
      | error err => rw [hg] at h; exact absurd h (by simp [res_bind_error])
      | ok p =>
        obtain ⟨⟨objE, field⟩, stg⟩ := p
        rw [hg, res_bind_ok] at h
        dsimp only at h
        cases field with
        | inr m => cases h
        | inl f =>
          dsimp only at h
          split at h
          · cases h
          · simp only [Except.ok.injEq, Prod.mk.injEq] at h
            obtain ⟨he, _⟩ := h
            rw [← he]
            have := getField_blocksNE (expression ctx fuel) ctx
              (fun s2 a2 e2 s3 => ih s2 a2 e2 s3) st o n objE (Sum.inl f) stg hg
            simpa [Expr.blocksNE] using this
    | ifE c t eb =>
      unfold expression at h
      dsimp only at h
      exact ifLower_blocksNE (expression ctx fuel) ctx
        (fun s2 a2 e2 s3 => ih s2 a2 e2 s3) st c t eb e st1 h
    | literal l =>
      unfold expression at h
      dsimp only at h
      simp only [Except.ok.injEq, Prod.mk.injEq] at h
      obtain ⟨he, _⟩ := h
      rw [← he]
      rfl
    | set o n v =>
      unfold expression at h
      dsimp only at h
      unfold setLower at h
      cases hg : getField (expression ctx fuel) ctx st o n with
      | error err => rw [hg] at h; exact absurd h (by simp [res_bind_error])
      | ok p =>
        obtain ⟨⟨objE, field⟩, stg⟩ := p
        rw [hg, res_bind_ok] at h
        dsimp only at h
        cases field with
        | inr m => cases h
        | inl f =>
          dsimp only at h
          cases hl : expression ctx fuel stg v with
          | error err => rw [hl] at h; exact absurd h (by simp [res_bind_error])
          | ok q =>
            obtain ⟨ve, stv⟩ := q
            rw [hl, res_bind_ok] at h
            dsimp only at h
            split at h
            · cases h
            · split at h
              · cases h
              · simp only [Except.ok.injEq, Prod.mk.injEq] at h
                obtain ⟨he, _⟩ := h
                rw [← he]
                have hobj := getField_blocksNE (expression ctx fuel) ctx
                  (fun s2 a2 e2 s3 => ih s2 a2 e2 s3) st o n objE (Sum.inl f) stg hg
                have hval := ih stg v ve stv hl
                simp [Expr.blocksNE, hobj, hval]
    | var t =>
      unfold expression at h
      dsimp only at h
      unfold varLower at h
      cases hv : findVar ctx st t with
      | some var =>
        rw [hv] at h
        simp only [Except.ok.injEq, Prod.mk.injEq] at h
        obtain ⟨he, _⟩ := h
        rw [← he]
        rfl
      | none =>
        rw [hv] at h
        dsimp only at h
        cases ht : alookup t.lexeme ctx.types with
        | some ty =>
          rw [ht] at h
          simp only [Except.ok.injEq, Prod.mk.injEq] at h
          obtain ⟨he, _⟩ := h
          rw [← he]
          rfl
        | none => rw [ht] at h; cases h
    | varDef n m i =>
      unfold expression at h
      dsimp only at h
      unfold varDefLower at h
      cases hl : expression ctx fuel st i with
      | error err => rw [hl] at h; exact absurd h (by simp [res_bind_error])
      | ok p =>
        obtain ⟨ie, sti⟩ := p
        rw [hl, res_bind_ok] at h
        dsimp only at h
        split at h
        · simp only [Except.ok.injEq, Prod.mk.injEq] at h
          obtain ⟨he, _⟩ := h
          rw [← he]
          simpa [Expr.blocksNE] using ih st i ie sti hl
        · cases h

/-- blocksNE over switch branches is elementwise. -/
lemma blocksNEPairs_all :
    ∀ (brs : List (Expr × Expr)), Expr.blocksNEPairs brs = true ↔
      ∀ b ∈ brs, b.1.blocksNE = true ∧ b.2.blocksNE = true := by
  intro brs
  induction brs with
  | nil => simp [Expr.blocksNEPairs]
  | cons b rest ih =>
    obtain ⟨x, y⟩ := b
    constructor
    · intro h c hc
      have hx : x.blocksNE = true ∧ y.blocksNE = true ∧
          Expr.blocksNEPairs rest = true := by
        simpa [Expr.blocksNEPairs, Bool.and_eq_true, and_assoc] using h
      rcases List.mem_cons.mp hc with rfl | hc2
      · exact ⟨hx.1, hx.2.1⟩
      · exact (ih.mp hx.2.2) c hc2
    · intro h
      have hx := h (x, y) (List.mem_cons_self _ _)
      have hrest := ih.mpr (fun c hc => h c (List.mem_cons_of_mem _ hc))
      simp [Expr.blocksNEPairs, Bool.and_eq_true, hx.1, hx.2, hrest]

/-- Inside a block-sound expression, every Block subterm is
non-empty. -/
lemma blocksNE_hasBlock :
    ∀ (e : Expr) (bs : List Expr), HasBlock e bs → e.blocksNE = true → bs ≠ [] := by
  intro e bs h
  induction h with
  | here es =>
    intro hb
    simp only [Expr.blocksNE, Bool.and_eq_true] at hb
    intro hnil
    rw [hnil] at hb
    simp at hb
  | blockElem es e2 bs2 hm h2 ih =>
    intro hb
    simp only [Expr.blocksNE, Bool.and_eq_true] at hb
    exact ih ((blocksNEList_all es).mp hb.2 e2 hm)
  | storeVal v val fs bs2 h2 ih =>
    intro hb
    exact ih (by simpa [Expr.blocksNE] using hb)
  | binaryL l op r bs2 h2 ih =>
    intro hb
    simp only [Expr.blocksNE, Bool.and_eq_true] at hb
    exact ih hb.1
  | binaryR l op r bs2 h2 ih =>
    intro hb
    simp only [Expr.blocksNE, Bool.and_eq_true] at hb
    exact ih hb.2
  | unaryR r op bs2 h2 ih =>
    intro hb
    exact ih (by simpa [Expr.blocksNE] using hb)
  | callCallee c args bs2 h2 ih =>
    intro hb
    simp only [Expr.blocksNE, Bool.and_eq_true] at hb
    exact ih hb.1
  | callArg c args e2 bs2 hm h2 ih =>
    intro hb
    simp only [Expr.blocksNE, Bool.and_eq_true] at hb
    exact ih ((blocksNEList_all args).mp hb.2 e2 hm)
  | callDynArg i idx args e2 bs2 hm h2 ih =>
    intro hb
    simp only [Expr.blocksNE] at hb
    exact ih ((blocksNEList_all args).mp hb e2 hm)
  | ifCond c t e2 pt bs2 h2 ih =>
    intro hb
    simp only [Expr.blocksNE, Bool.and_eq_true] at hb
    exact ih hb.1.1
  | ifThen c t e2 pt bs2 h2 ih =>
    intro hb
    simp only [Expr.blocksNE, Bool.and_eq_true] at hb
    exact ih hb.1.2
  | ifElse c t e2 pt bs2 h2 ih =>
    intro hb
    simp only [Expr.blocksNE, Bool.and_eq_true] at hb
    exact ih hb.2
  | switchBranchL brs el pt b bs2 hm h2 ih =>
    intro hb
    simp only [Expr.blocksNE, Bool.and_eq_true] at hb
    exact ih (((blocksNEPairs_all brs).mp hb.1 b hm).1)
  | switchBranchR brs el pt b bs2 hm h2 ih =>
    intro hb
    simp only [Expr.blocksNE, Bool.and_eq_true] at hb
    exact ih (((blocksNEPairs_all brs).mp hb.1 b hm).2)
  | switchElse brs el pt bs2 h2 ih =>
    intro hb
    simp only [Expr.blocksNE, Bool.and_eq_true] at hb
    exact ih hb.2
  | loopCond c b e2 pt bs2 h2 ih =>
    intro hb
    simp only [Expr.blocksNE, Bool.and_eq_true] at hb
    exact ih hb.1.1
  | loopBody c b e2 pt bs2 h2 ih =>
    intro hb
    simp only [Expr.blocksNE, Bool.and_eq_true] at hb
    exact ih hb.1.2
  | loopElse c b e2 pt bs2 h2 ih =>
    intro hb
    simp only [Expr.blocksNE, Bool.and_eq_true] at hb
    exact ih hb.2
  | castInner i t bs2 h2 ih =>
    intro hb
    exact ih (by simpa [Expr.blocksNE] using hb)
  | structGetObj o f bs2 h2 ih =>
    intro hb
    exact ih (by simpa [Expr.blocksNE] using hb)
  | structSetObj o idx v fs bs2 h2 ih =>
    intro hb
    simp only [Expr.blocksNE, Bool.and_eq_true] at hb
    exact ih hb.1
  | structSetVal o idx v fs bs2 h2 ih =>
    intro hb
    simp only [Expr.blocksNE, Bool.and_eq_true] at hb
    exact ih hb.2
  | allocateArg t c args e2 bs2 hm h2 ih =>
    intro hb
    simp only [Expr.blocksNE] at hb
    exact ih ((blocksNEList_all args).mp hb e2 hm)

/-- C9: lowering an empty AST block yields the None literal; every
expression the generator produces has only non-empty Block subterms, so
the first/last element unwraps of get_token and get_type cannot panic
on a generator-produced Block. -/
theorem c9_generated_blocks_nonempty (ctx : Ctx) :
    (∀ (lower : Lower) (st : GenState),
      blockLower lower st [] = Except.ok (Expr.literal Lit.none, st)) ∧
    (∀ fuel st a e st_out, expression ctx fuel st a = Except.ok (e, st_out) →
      e.blocksNE = true) ∧
    (∀ e bs, e.blocksNE = true → HasBlock e bs →
      bs ≠ [] ∧ bs.head?.isSome ∧ bs.getLast?.isSome) := by
  refine ⟨fun lower st => rfl,
    fun fuel st a e st_out h => expression_blocksNE ctx fuel st a e st_out h, ?_⟩
  intro e bs hb hh
  have hne : bs ≠ [] := blocksNE_hasBlock e bs hh hb
  refine ⟨hne, ?_, ?_⟩
  · cases bs with
    | nil => exact absurd rfl hne
    | cons x xs => rfl
  · cases hlast : bs.getLast? with
    | some x => rfl
    | none =>
      exact absurd (List.getLast?_eq_none_iff.mp hlast) hne

/-- Witness for C9: the empty block lowers to the None literal, and a
generated one-element block is non-empty with defined first and last
elements. -/
theorem c9_generated_blocks_nonempty_witness :
    (blockLower lowerLit st0 [] = Except.ok (Expr.literal Lit.none, st0)) ∧
    (expression ctxW 2 st0 (AST.block [AST.literal (Lit.i64 1)]) =
      Except.ok (Expr.block [Expr.literal (Lit.i64 1)], st0)) ∧
    (Expr.block [Expr.literal (Lit.i64 1)]).blocksNE = true ∧
    ([Expr.literal (Lit.i64 1)] ≠ [] ∧
      [Expr.literal (Lit.i64 1)].head?.isSome ∧
      [Expr.literal (Lit.i64 1)].getLast?.isSome) := by
  have hb := (c9_generated_blocks_nonempty ctxW).2.1 2 st0
    (AST.block [AST.literal (Lit.i64 1)]) (Expr.block [Expr.literal (Lit.i64 1)])
    st0 rfl
  exact ⟨(c9_generated_blocks_nonempty ctxW).1 lowerLit st0, rfl, hb,
    (c9_generated_blocks_nonempty ctxW).2.2 _ _ hb (HasBlock.here _)⟩

/-- takeWhile of an all-satisfying list is the list itself. -/
lemma takeWhile_all {α : Type} (p : α → Bool) :
    ∀ (l : List α), (∀ x ∈ l, p x = true) → l.takeWhile p = l := by
  intro l
  induction l with
  | nil => intro _; rfl
  | cons x xs ih =>
    intro h
    rw [List.takeWhile_cons]
    rw [h x (List.mem_cons_self _ _)]
    simp only [if_true]
    rw [ih (fun y hy => h y (List.mem_cons_of_mem _ hy))]

/-- takeWhile over a region of skippable lexemes ending at a
non-skippable one takes exactly the region. -/
lemma takeWhile_trivia_region (L : List Lexeme) :
    ∀ (k c : Nat),
    (∀ i, c ≤ i → i < c + k → ∃ lx, L.get? i = some lx ∧ lx.shouldSkip = true) →
    (∀ lx, L.get? (c + k) = some lx → lx.shouldSkip = false) →
    (L.drop c).takeWhile (fun lx => lx.shouldSkip) = (L.drop c).take k := by
  intro k
  induction k with
  | zero =>
    intro c hall hstop
    cases hd : L.drop c with
    | nil => simp
    | cons x xs =>
      have hx : L.get? c = some x := by
        have hg := List.get?_drop L c 0
        rw [hd] at hg
        simpa using hg.symm
      have hfalse := hstop x (by simpa using hx)
      rw [List.takeWhile_cons, hfalse]
      simp
  | succ k ih =>
    intro c hall hstop
    obtain ⟨x, hxg, hxs⟩ := hall c (Nat.le_refl c) (by omega)
    have hlt : c < L.length := (List.get?_eq_some.mp hxg).choose
    have hd : L.drop c = x :: L.drop (c + 1) := by
      rw [List.drop_eq_get_cons hlt]
      have hget : L.get ⟨c, hlt⟩ = x := by
        have := List.get?_eq_get hlt
        rw [hxg] at this
        injection this with h2
        exact h2.symm
      rw [hget]
    rw [hd, List.takeWhile_cons, hxs]
    simp only [if_true, List.take_succ_cons]
    congr 1
    have hall2 : ∀ i, c + 1 ≤ i → i < c + 1 + k →
        ∃ lx, L.get? i = some lx ∧ lx.shouldSkip = true := by
      intro i h1 h2
      exact hall i (by omega) (by omega)
    have hstop2 : ∀ lx, L.get? (c + 1 + k) = some lx → lx.shouldSkip = false := by
      intro lx hlx
      refine hstop lx ?_
      rwa [show c + (k + 1) = c + 1 + k by omega]
    exact ih (c + 1) hall2 hstop2

/-- The sink replay splits over appended event lists. -/
lemma sinkRun_append (L : List Lexeme) :
    ∀ (evs1 evs2 : List Event) (c : Nat),
    sinkRun L c (evs1 ++ evs2) =
      ((sinkRun L c evs1).1 ++ (sinkRun L (sinkRun L c evs1).2 evs2).1,
        (sinkRun L (sinkRun L c evs1).2 evs2).2) := by
  intro evs1
  induction evs1 with
  | nil => intro evs2 c; simp [sinkRun]
  | cons e rest ih =>
    intro evs2 c
    cases e with
    | addToken k t =>
      simp only [List.cons_append, sinkRun, List.append_eq]
      rw [ih]
      simp
    | startNode k => simpa [sinkRun] using ih evs2 c
    | startNodeAt cp k => simpa [sinkRun] using ih evs2 c
    | finishNode => simpa [sinkRun] using ih evs2 c

/-- Replaying a single token event flushes the pending skippable
lexemes and then emits the token text. -/
lemma sinkRun_single_token (L : List Lexeme) (c k : Nat) (t : String) :
    sinkRun L c [Event.addToken k t] =
      (((L.drop c).takeWhile (fun lx => lx.shouldSkip)).map (fun l => l.text) ++ [t],
        c + ((L.drop c).takeWhile (fun lx => lx.shouldSkip)).length + 1) := rfl

/-- One parser step preserves the sink replay invariant. -/
lemma pstep_inv (L : List Lexeme) (s s2 : PState) (hstep : PStep L s s2)
    (hinv : SinkInv L s) : SinkInv L s2 := by
  obtain ⟨h1, h2, h3, h4⟩ := hinv
  cases hstep with
  | skip lx hget hskip =>
    have hlt : s.pos < L.length := (List.get?_eq_some.mp hget).choose
    refine ⟨Nat.le_succ_of_le h1, Nat.succ_le_of_lt hlt, h3, ?_⟩
    intro i hi1 hi2
    by_cases hie : i = s.pos
    · subst hie
      exact ⟨lx, hget, hskip⟩
    · exact h4 i hi1 (by simp at hi2; omega)
  | advance lx hget hns =>
    have hlt : s.pos < L.length := (List.get?_eq_some.mp hget).choose
    have hr := sinkRun_append L s.events [Event.addToken lx.kind lx.text] 0
    have hstop : ∀ lx2, L.get? ((sinkRun L 0 s.events).2 +
        (s.pos - (sinkRun L 0 s.events).2)) = some lx2 → lx2.shouldSkip = false := by
      intro lx2 hlx2
      rw [show (sinkRun L 0 s.events).2 + (s.pos - (sinkRun L 0 s.events).2) = s.pos by
        omega] at hlx2
      rw [hget] at hlx2
      injection hlx2 with hx
      rw [← hx]
      exact hns
    have hall : ∀ i, (sinkRun L 0 s.events).2 ≤ i →
        i < (sinkRun L 0 s.events).2 + (s.pos - (sinkRun L 0 s.events).2) →
        ∃ lx2, L.get? i = some lx2 ∧ lx2.shouldSkip = true := by
      intro i hi1 hi2
      exact h4 i hi1 (by omega)
    have htw := takeWhile_trivia_region L (s.pos - (sinkRun L 0 s.events).2)
      (sinkRun L 0 s.events).2 hall hstop
    have hlen : ((L.drop (sinkRun L 0 s.events).2).take
        (s.pos - (sinkRun L 0 s.events).2)).length =
        s.pos - (sinkRun L 0 s.events).2 := by
      rw [List.length_take, List.length_drop]
      omega
    have hone := sinkRun_single_token L (sinkRun L 0 s.events).2 lx.kind lx.text
    rw [htw, hlen] at hone
    rw [show (sinkRun L 0 s.events).2 + (s.pos - (sinkRun L 0 s.events).2) + 1 =
      s.pos + 1 by omega] at hone
    constructor
    · rw [hr, hone]
    refine ⟨Nat.succ_le_of_lt hlt, ?_, ?_⟩
    · rw [hr, hone]
      dsimp only
      rw [h3]
      have htake : L.take (s.pos + 1) =
          (L.take (sinkRun L 0 s.events).2 ++
            (L.drop (sinkRun L 0 s.events).2).take
              (s.pos - (sinkRun L 0 s.events).2)) ++ [lx] := by
        rw [← List.take_add]
        rw [show (sinkRun L 0 s.events).2 + (s.pos - (sinkRun L 0 s.events).2) =
          s.pos by omega]
        rw [List.take_succ]
        rw [show L[s.pos]? = some lx from by
          rw [← List.get?_eq_getElem?]
          exact hget]
        rfl
      rw [htake]
      simp
    · intro i hi1 hi2
      rw [hr, hone] at hi1
      dsimp only at hi1 hi2
      omega
  | emit e he =>
    have hone : ∀ c, sinkRun L c [e] = ([], c) := by
      intro c
      cases e with
      | addToken k t => exact absurd rfl (he k t)
      | startNode k => rfl
      | startNodeAt cp k => rfl
      | finishNode => rfl
    have hr := sinkRun_append L s.events [e] 0
    rw [hone] at hr
    simp only [List.append_nil] at hr
    refine ⟨?_, h2, ?_, ?_⟩
    · rw [hr]; exact h1
    · rw [hr]; exact h3
    · intro i hi1 hi2
      rw [hr] at hi1
      exact h4 i hi1 hi2

/-- Every reachable parser state satisfies the sink replay
invariant. -/
lemma run_inv (L : List Lexeme) (s : PState)
    (h : Relation.ReflTransGen (PStep L) ⟨0, []⟩ s) : SinkInv L s := by
  induction h with
  | refl => exact ⟨Nat.le_refl 0, Nat.zero_le _, rfl, fun i hi1 hi2 => absurd hi2 (Nat.not_lt_zero i)⟩
  | tail hsteps hstep ih => exact pstep_inv L _ _ hstep ih

/-- C8: printing the green tree assembled by the sink from a complete
parser run reproduces the source exactly: every lexeme, skippable ones
included, is emitted once and in order. -/
theorem c8_parse_roundtrip (L : List Lexeme) (s : PState) (source : String)
    (hlex : String.join (L.map (fun lx => lx.text)) = source)
    (hrun : ParserRun L s) :
    sinkPrint L s.events = source := by
  obtain ⟨hsteps, hend⟩ := hrun
  obtain ⟨h1, h2, h3, h4⟩ := run_inv L s hsteps
  have hpos : s.pos = L.length := by omega
  have htrail : (L.drop (sinkRun L 0 s.events).2).takeWhile
      (fun lx => lx.shouldSkip) = L.drop (sinkRun L 0 s.events).2 := by
    refine takeWhile_all _ _ ?_
    intro x hx
    obtain ⟨j, hj⟩ := List.get_of_mem hx
    have hg : L.get? ((sinkRun L 0 s.events).2 + j.1) = some x := by
      rw [← List.get?_drop]
      rw [List.get?_eq_get j.isLt]
      rw [hj]
    have hjlt : (sinkRun L 0 s.events).2 + j.1 < L.length := by
      have h0 : j.1 < L.length - (sinkRun L 0 s.events).2 :=
        lt_of_lt_of_eq j.isLt (by simp)
      omega
    obtain ⟨lx2, hlx2, hsk⟩ := h4 ((sinkRun L 0 s.events).2 + j.1)
      (by omega) (by omega)
    rw [hg] at hlx2
    injection hlx2 with hx2
    rw [← hx2] at hsk
    exact hsk
  unfold sinkPrint
  rw [htrail, h3]
  rw [← List.map_append, List.take_append_drop]
  exact hlex

/-- Witness for C8: a two-lexeme source of whitespace then a token
round-trips through a concrete parser run. -/
theorem c8_parse_roundtrip_witness :
    String.join ([Lexeme.mk 0 true " ", Lexeme.mk 1 false "fn"].map
      (fun lx => lx.text)) = " fn" ∧
    ParserRun [Lexeme.mk 0 true " ", Lexeme.mk 1 false "fn"]
      ⟨2, [Event.addToken 1 "fn"]⟩ ∧
    sinkPrint [Lexeme.mk 0 true " ", Lexeme.mk 1 false "fn"]
      [Event.addToken 1 "fn"] = " fn" := by
  have hrun : ParserRun [Lexeme.mk 0 true " ", Lexeme.mk 1 false "fn"]
      ⟨2, [Event.addToken 1 "fn"]⟩ := by
    constructor
    · have s1 : Relation.ReflTransGen
          (PStep [Lexeme.mk 0 true " ", Lexeme.mk 1 false "fn"]) ⟨0, []⟩ ⟨1, []⟩ :=
        Relation.ReflTransGen.tail Relation.ReflTransGen.refl
          (PStep.skip ⟨0, []⟩ (Lexeme.mk 0 true " ") rfl rfl)
      exact Relation.ReflTransGen.tail s1
        (PStep.advance ⟨1, []⟩ (Lexeme.mk 1 false "fn") rfl rfl)
    · decide
  exact ⟨rfl, hrun,
    c8_parse_roundtrip [Lexeme.mk 0 true " ", Lexeme.mk 1 false "fn"]
      ⟨2, [Event.addToken 1 "fn"]⟩ " fn" rfl hrun⟩

end Gelix
